import Mathlib

/-!
# Lantern back end: the US Core 3.1 (R4) capability-statement validation

A shallow embedding of `endpointmanager/pkg/capabilityhandler/validation/r4validation.go`.

* Decoded JSON (`interface{}`) is the type `Value`; a `map[string]interface{}` is an
  association list, indexed like a Go map (a missing key reads as `nil`).
* `capabilityparser.CapabilityStatement` is a Go interface: a document is known to the
  validation only through its accessors, so it is a record of accessor results. A `nil`
  interface value is `none`; calling a method on it is a run-time panic.
* The embedded `baseVal` rule set is not part of these sources and is a parameter.
* Functions that can panic return `Except Panic _`.
-/

set_option autoImplicit false

namespace R4Validation

/-! ## Data model -/

/-- A decoded JSON value, as held in a Go `interface{}`. Numbers and booleans are only ever
tested for *not* being a string, a list or an object. -/
inductive Value where
  | null : Value
  | bool : Bool → Value
  | num : Int → Value
  | str : String → Value
  | arr : List Value → Value
  | obj : List (String × Value) → Value

/-- A Go `map[string]interface{}`. -/
abbrev Object := List (String × Value)

/-- Go map indexing `m[key]`: the zero value `nil` when the key is absent. -/
def Object.index (m : Object) (key : String) : Value :=
  match m.lookup key with
  | some v => v
  | none => Value.null

/-- Modelled from the spec: the rule-name enumeration `endpointmanager.RuleOption`, whose
declaration is not among the sources. The constructors are the constants that the
validation code names; `other` stands for the names given by the base rule set. -/
inductive RuleOption where
  | TLSVersion
  | PatResourceExists
  | OtherResourceExists
  | SmartHTTPRespRule
  | InstanceRule
  | MessagingEndptRule
  | EndptFunctionRule
  | DescribeEndptRule
  | DocumentValidRule
  | UniqueResourcesRule
  | SearchParamsRule
  | other (tag : String)
  deriving DecidableEq, Repr

/-- The record `endpointmanager.Rule`. -/
structure Rule where
  RuleName : RuleOption
  Valid : Bool
  Expected : String
  Actual : String
  Comment : String
  Reference : String
  ImplGuide : String
  deriving DecidableEq, Repr

/-- The record `endpointmanager.Validation`. -/
structure Validation where
  Results : List Rule
  Warnings : List Rule
  deriving DecidableEq, Repr

/-- The outcome `(value, err)` of an accessor: either a value or an error text. -/
abbrev Accessor (α : Type) := Except String α

/-- The interface `capabilityparser.CapabilityStatement`, restricted to the accessors that
the validation calls. -/
structure CapabilityStatement where
  GetRest : Accessor (List Object)
  GetResourceList : Object → Accessor (List Object)
  GetMessaging : Accessor (List Object)
  GetMessagingEndpoint : Object → Accessor (List Object)
  GetDocument : Accessor (List Object)
  GetDescription : Accessor String
  GetSoftware : Accessor Object
  GetImplementation : Accessor Object

/-- The rule set `baseVal` that `r4Validation` embeds; its code is not among the sources,
so every base check is a parameter. -/
structure baseVal where
  CapStatExists : Option CapabilityStatement → Rule
  MimeTypeValid : List String → String → Rule
  HTTPResponseValid : Int → Rule
  FhirVersion : String → Rule
  KindValid : Option CapabilityStatement → List Rule

/-- Run-time panics of the Go code. -/
inductive Panic where
  | nilDereference
  | indexOutOfRange
  deriving DecidableEq, Repr

/-- Method call on an interface value: a `nil` interface panics. -/
def deref (capStat : Option CapabilityStatement) : Except Panic CapabilityStatement :=
  match capStat with
  | some cs => .ok cs
  | none => .error Panic.nilDereference

/-! ## Constants -/

def tls12 : String := "TLS 1.2"
def tls13 : String := "TLS 1.3"

def usCoreProfiles : List String := ["AllergyIntolerance", "CarePlan", "CareTeam",
  "Condition", "DiagnosticReport", "DocumentReference", "Encounter", "Goal",
  "Immunization", "Device", "Observation", "Location", "Medication",
  "MedicationRequest", "Organization", "Practitioner", "PractitionerRole",
  "Procedure", "Provenance"]

/-! ## Helpers -/

def stringInList (str : String) : List String → Bool
  | [] => false
  | b :: list => if b = str then true else stringInList str list

/-- The loop of `areSearchParamsValid` over the elements of the `searchParam` list, with
the names seen so far. -/
def searchParamsLoop : List Value → List String → Accessor Bool
  | [], _ => .ok true
  | elem :: searchList, searchParams =>
    match elem with
    | Value.obj obj =>
      match Object.index obj "name" with
      | Value.null => .error "Name does not exist but is required in searchParam values"
      | Value.str nameStr =>
        if stringInList nameStr searchParams then .ok false
        else searchParamsLoop searchList (searchParams ++ [nameStr])
      | _ => .error "Unable to cast the name of a searchParam to a string"
    | _ => .error "Unable to cast element of searchParam list to a map[string]interface\x7b\x7d"

def areSearchParamsValid (resource : Object) : Accessor Bool :=
  match Object.index resource "searchParam" with
  | Value.null => .ok true
  | Value.arr searchList => searchParamsLoop searchList []
  | _ => .error "Unable to cast searchParam value in a resource to a list"

/-! ## The resource-list rules -/

/-- The three assignments `Valid = false; Actual = "false"; Comment = ...`. -/
def Rule.failWith (ruleError : Rule) (comment : String) : Rule :=
  { ruleError with Valid := false, Actual := "false", Comment := comment }

/-- Control flow out of a loop body: `ret` is a `return` of the enclosing function, `next`
carries the loop variables (`ruleError`, `uniqueRecs`) to the following iteration. -/
inductive Flow where
  | ret (ruleError : Rule)
  | next (ruleError : Rule) (uniqueRecs : List String)

/-- One iteration of the inner loop of `checkResourceList`, on one resource. -/
def resourceBody (rule : RuleOption) (resource : Object) (ruleError : Rule)
    (uniqueRecs : List String) : Flow :=
  match Object.index resource "type" with
  | Value.null =>
    Flow.ret (ruleError.failWith "The Resource Profiles are not properly formatted. ")
  | Value.str typeStr =>
    if rule = RuleOption.OtherResourceExists then
      if stringInList typeStr usCoreProfiles then Flow.ret ruleError
      else Flow.next ruleError uniqueRecs
    else if rule = RuleOption.PatResourceExists then
      if typeStr = "Patient" then Flow.ret ruleError
      else Flow.next ruleError uniqueRecs
    else if rule = RuleOption.UniqueResourcesRule then
      if stringInList typeStr uniqueRecs then
        Flow.ret (ruleError.failWith ("The resource type " ++ typeStr ++ " is not unique. "))
      else Flow.next ruleError (uniqueRecs ++ [typeStr])
    else if rule = RuleOption.SearchParamsRule then
      match areSearchParamsValid resource with
      | .error _ =>
        Flow.next
          (ruleError.failWith (ruleError.Comment ++
            ("The resource type " ++ typeStr ++ " is not formatted properly. ")))
          uniqueRecs
      | .ok check =>
        if !check then
          Flow.next
            (ruleError.failWith (ruleError.Comment ++
              ("The resource type " ++ typeStr ++ " does not have unique searchParams. ")))
            uniqueRecs
        else Flow.next ruleError uniqueRecs
    else Flow.next ruleError uniqueRecs
  | _ =>
    Flow.ret (ruleError.failWith "The Resource Profiles are not properly formatted. ")

/-- The inner loop of `checkResourceList`, over the resources of one REST block. -/
def resourceLoop (rule : RuleOption) : List Object → Rule → List String → Flow
  | [], ruleError, uniqueRecs => Flow.next ruleError uniqueRecs
  | resource :: resourceList, ruleError, uniqueRecs =>
    match resourceBody rule resource ruleError uniqueRecs with
    | Flow.ret r => Flow.ret r
    | Flow.next ruleError uniqueRecs => resourceLoop rule resourceList ruleError uniqueRecs

/-- The code of `checkResourceList` after its loops. -/
def checkResourceListEnd (rule : RuleOption) (ruleError : Rule) : Rule :=
  if rule = RuleOption.UniqueResourcesRule ∨ rule = RuleOption.SearchParamsRule then ruleError
  else { ruleError with Valid := false, Actual := "false" }

/-- The outer loop of `checkResourceList`, over the REST blocks, followed by the code after
the loop. -/
def restLoop (capStat : CapabilityStatement) (rule : RuleOption) :
    List Object → Rule → List String → Rule
  | [], ruleError, _ => checkResourceListEnd rule ruleError
  | restElem :: rest, ruleError, uniqueRecs =>
    match capStat.GetResourceList restElem with
    | .error _ => ruleError.failWith "The Resource Profiles do not exist. "
    | .ok resourceList =>
      if resourceList.length = 0 then ruleError.failWith "The Resource Profiles do not exist. "
      else
        match resourceLoop rule resourceList ruleError uniqueRecs with
        | Flow.ret r => r
        | Flow.next ruleError uniqueRecs => restLoop capStat rule rest ruleError uniqueRecs

def checkResourceList (capStat : Option CapabilityStatement) (rule : RuleOption) : Rule :=
  let ruleError : Rule :=
    { RuleName := rule, Valid := true, Expected := "true", Actual := "", Comment := "",
      Reference := "", ImplGuide := "USCore 3.1" }
  match capStat with
  | none =>
    ruleError.failWith "The Capability Statement does not exist; cannot check resource profiles. "
  | some cs =>
    match cs.GetRest with
    | .error _ => ruleError.failWith "Rest field does not exist. "
    | .ok rest => restLoop cs rule rest ruleError []

def PatientResourceExists (capStat : Option CapabilityStatement) : Rule :=
  let baseComment := "The US Core Server SHALL support the US Core Patient resource profile."
  let returnVal := checkResourceList capStat RuleOption.PatResourceExists
  { returnVal with
    Comment := returnVal.Comment ++ baseComment,
    Reference := "https://www.hl7.org/fhir/us/core/CapabilityStatement-us-core-server.html" }

def OtherResourceExists (capStat : Option CapabilityStatement) : Rule :=
  let baseComment := "The US Core Server SHALL support at least one additional resource profile (besides Patient) from the list of US Core Profiles. "
  let returnVal := checkResourceList capStat RuleOption.OtherResourceExists
  { returnVal with
    Comment := returnVal.Comment ++ baseComment,
    Reference := "https://www.hl7.org/fhir/us/core/CapabilityStatement-us-core-server.html" }

def UniqueResources (capStat : Option CapabilityStatement) : Rule :=
  let baseComment := "A given resource can only be described once per RESTful mode."
  let returnVal := checkResourceList capStat RuleOption.UniqueResourcesRule
  { returnVal with
    Comment := returnVal.Comment ++ baseComment,
    Reference := "http://hl7.org/fhir/capabilitystatement.html" }

def SearchParamsUnique (capStat : Option CapabilityStatement) : Rule :=
  let baseComment := "Search parameter names must be unique in the context of a resource."
  let returnVal := checkResourceList capStat RuleOption.SearchParamsRule
  { returnVal with
    Comment := returnVal.Comment ++ baseComment,
    Reference := "http://hl7.org/fhir/capabilitystatement.html" }

/-! ## The other rules -/

/-- Go `strconv.Itoa`. -/
def Itoa (n : Int) : String := toString n

def CapStatExists (v : baseVal) (capStat : Option CapabilityStatement) : Rule :=
  let baseRule := v.CapStatExists capStat
  { baseRule with
    Comment := "Servers SHALL provide a Capability Statement that specifies which interactions and resources are supported.",
    Reference := "http://hl7.org/fhir/http.html",
    ImplGuide := "USCore 3.1" }

def MimeTypeValid (v : baseVal) (mimeTypes : List String) (fhirVersion : String) : Rule :=
  let baseRule := v.MimeTypeValid mimeTypes fhirVersion
  { baseRule with Reference := "http://hl7.org/fhir/http.html", ImplGuide := "USCore 3.1" }

def HTTPResponseValid (v : baseVal) (httpResponse : Int) : Rule :=
  let baseRule := v.HTTPResponseValid httpResponse
  let baseRule : Rule :=
    { baseRule with Reference := "http://hl7.org/fhir/http.html", ImplGuide := "USCore 3.1" }
  if httpResponse ≠ 0 ∧ httpResponse ≠ 200 then
    let strResp := Itoa httpResponse
    { baseRule with
      Comment := "The HTTP response code was " ++ strResp ++ " instead of 200. Applications SHALL return a resource that describes the functionality of the server end-point." }
  else baseRule

def TLSVersion (tlsVersion : String) : Rule :=
  let ruleError : Rule :=
    { RuleName := RuleOption.TLSVersion,
      Valid := true,
      Expected := "TLS 1.2, TLS 1.3",
      Actual := tlsVersion,
      Comment := "Systems SHALL use TLS version 1.2 or higher for all transmissions not taking place over a secure network connection.",
      Reference := "https://www.hl7.org/fhir/us/core/security.html",
      ImplGuide := "USCore 3.1" }
  if tlsVersion ≠ tls12 ∧ tlsVersion ≠ tls13 then { ruleError with Valid := false }
  else ruleError

def SmartHTTPResponseValid (v : baseVal) (smartHTTPRsp : Int) : Rule :=
  let baseComment := "FHIR endpoints requiring authorization SHALL serve a JSON document at the location formed by appending /.well-known/smart-configuration to their base URL."
  let baseRule := v.HTTPResponseValid smartHTTPRsp
  let baseRule : Rule :=
    { baseRule with
      RuleName := RuleOption.SmartHTTPRespRule,
      Comment := baseComment,
      Reference := "http://www.hl7.org/fhir/smart-app-launch/conformance/index.html",
      ImplGuide := "USCore 3.1" }
  if smartHTTPRsp ≠ 0 ∧ smartHTTPRsp ≠ 200 then
    let strResp := Itoa smartHTTPRsp
    { baseRule with
      Comment := "The HTTP response code was " ++ strResp ++ " instead of 200. Applications SHALL return a resource that describes the functionality of the server end-point. " ++ baseComment }
  else baseRule

/-- The rule set `KindValid`: `baseRule[0]` panics on an empty slice, and the accessor call
`capStat.GetImplementation()` is made without a `nil` check. -/
def KindValid (v : baseVal) (capStat : Option CapabilityStatement) : Except Panic (List Rule) :=
  match v.KindValid capStat with
  | [] => .error Panic.indexOutOfRange
  | baseRule0 :: _ =>
    let rules : List Rule :=
      [{ baseRule0 with
         Reference := "http://hl7.org/fhir/capabilitystatement.html", ImplGuide := "USCore 3.1" }]
    let instanceRule : Rule :=
      { RuleName := RuleOption.InstanceRule,
        Valid := true,
        Expected := "true",
        Actual := "true",
        Comment := "If kind = instance, implementation must be present. This endpoint must be an instance.",
        Reference := "http://hl7.org/fhir/capabilitystatement.html",
        ImplGuide := "USCore 3.1" }
    match deref capStat with
    | .error p => .error p
    | .ok cs =>
      match cs.GetImplementation with
      | .error _ => .ok (rules ++ [{ instanceRule with Valid := false, Actual := "false" }])
      | .ok impl =>
        if impl.length = 0 then
          .ok (rules ++ [{ instanceRule with Valid := false, Actual := "false" }])
        else .ok (rules ++ [instanceRule])

/-- The loop of `MessagingEndpointValid` over the messaging entries. -/
def messagingLoop (capStat : CapabilityStatement) (baseComment : String) (ruleError : Rule) :
    List Object → Rule
  | [] => ruleError
  | message :: messaging =>
    match capStat.GetMessagingEndpoint message with
    | .error _ =>
      ruleError.failWith ("Endpoint field in Messaging does not exist. " ++ baseComment)
    | .ok endpoints =>
      if endpoints.length = 0 then
        ruleError.failWith ("Endpoint field in Messaging does not exist. " ++ baseComment)
      else messagingLoop capStat baseComment ruleError messaging

def MessagingEndpointValid (v : baseVal) (capStat : Option CapabilityStatement) :
    Except Panic Rule :=
  let baseComment := "Messaging end-point is required (and is only permitted) when a statement is for an implementation. This endpoint must be an implementation."
  let ruleError : Rule :=
    { RuleName := RuleOption.MessagingEndptRule,
      Valid := true,
      Expected := "true",
      Actual := "true",
      Comment := baseComment,
      Reference := "http://hl7.org/fhir/capabilitystatement.html",
      ImplGuide := "USCore 3.1" }
  match v.KindValid capStat with
  | [] => .error Panic.indexOutOfRange
  | kindRule0 :: _ =>
    if !kindRule0.Valid then
      .ok (ruleError.failWith (kindRule0.Comment ++ " " ++ baseComment))
    else
      match deref capStat with
      | .error p => .error p
      | .ok cs =>
        match cs.GetMessaging with
        | .error _ => .ok (ruleError.failWith ("Messaging does not exist. " ++ baseComment))
        | .ok messaging => .ok (messagingLoop cs baseComment ruleError messaging)

/-- The tail shared by `EndpointFunctionValid` and `DescribeEndpointValid`: the rule fails
with an empty `Actual` when no name was collected, else `Actual` is the joined names. -/
def finishPresence (ruleError : Rule) (actualVal : List String) : Rule :=
  if actualVal.length = 0 then { ruleError with Actual := "", Valid := false }
  else { ruleError with Actual := String.intercalate "," actualVal }

def EndpointFunctionValid (capStat : Option CapabilityStatement) : Except Panic Rule :=
  let baseComment := "A Capability Statement SHALL have at least one of REST, messaging or document element."
  let ruleError : Rule :=
    { RuleName := RuleOption.EndptFunctionRule,
      Valid := true,
      Expected := "rest OR messaging OR document",
      Actual := "",
      Comment := baseComment,
      Reference := "http://hl7.org/fhir/capabilitystatement.html",
      ImplGuide := "USCore 3.1" }
  match deref capStat with
  | .error p => .error p
  | .ok cs =>
    let actualVal : List String := []
    let actualVal :=
      match cs.GetRest with
      | .ok rest => if rest.length > 0 then actualVal ++ ["rest"] else actualVal
      | .error _ => actualVal
    let actualVal :=
      match cs.GetMessaging with
      | .ok messaging => if messaging.length > 0 then actualVal ++ ["messaging"] else actualVal
      | .error _ => actualVal
    let actualVal :=
      match cs.GetDocument with
      | .ok document => if document.length > 0 then actualVal ++ ["document"] else actualVal
      | .error _ => actualVal
    .ok (finishPresence ruleError actualVal)

def DescribeEndpointValid (capStat : Option CapabilityStatement) : Except Panic Rule :=
  let baseComment := "A Capability Statement SHALL have at least one of description, software, or implementation element."
  let ruleError : Rule :=
    { RuleName := RuleOption.DescribeEndptRule,
      Valid := true,
      Expected := "description OR software OR implementation",
      Actual := "",
      Comment := baseComment,
      Reference := "http://hl7.org/fhir/capabilitystatement.html",
      ImplGuide := "USCore 3.1" }
  match deref capStat with
  | .error p => .error p
  | .ok cs =>
    let actualVal : List String := []
    let actualVal :=
      match cs.GetDescription with
      | .ok description =>
        if description.length > 0 then actualVal ++ ["description"] else actualVal
      | .error _ => actualVal
    let actualVal :=
      match cs.GetSoftware with
      | .ok software => if software.length > 0 then actualVal ++ ["software"] else actualVal
      | .error _ => actualVal
    let actualVal :=
      match cs.GetImplementation with
      | .ok implementation =>
        if implementation.length > 0 then actualVal ++ ["implementation"] else actualVal
      | .error _ => actualVal
    .ok (finishPresence ruleError actualVal)

/-- Control flow out of the loop of `DocumentSetValid`: a `return` of the function, or the
end of the loop (by `break` with `invalid = true`, or by exhaustion). -/
inductive DocFlow where
  | ret (ruleError : Rule)
  | exit (invalid : Bool)

/-- The loop of `DocumentSetValid` over the document entries, with the keys seen so far. -/
def documentLoop (ruleError : Rule) (baseComment : String) : List Object → List String → DocFlow
  | [], _ => DocFlow.exit false
  | doc :: document, uniqueIDs =>
    match Object.index doc "mode" with
    | Value.null => DocFlow.exit true
    | Value.str modeStr =>
      match Object.index doc "profile" with
      | Value.null => DocFlow.exit true
      | Value.str profileStr =>
        let id := profileStr ++ "." ++ modeStr
        if stringInList id uniqueIDs then
          DocFlow.ret (ruleError.failWith ("The set of documents are not unique. " ++ baseComment))
        else documentLoop ruleError baseComment document (uniqueIDs ++ [id])
      | _ => DocFlow.exit true
    | _ => DocFlow.exit true

def DocumentSetValid (capStat : Option CapabilityStatement) : Except Panic Rule :=
  let baseComment := "The set of documents must be unique by the combination of profile and mode."
  let ruleError : Rule :=
    { RuleName := RuleOption.DocumentValidRule,
      Valid := true,
      Expected := "true",
      Actual := "true",
      Comment := baseComment,
      Reference := "http://hl7.org/fhir/capabilitystatement.html",
      ImplGuide := "USCore 3.1" }
  match deref capStat with
  | .error p => .error p
  | .ok cs =>
    match cs.GetDocument with
    | .error _ =>
      .ok (ruleError.failWith ("Document field is not formatted correctly. Cannot check if the set of documents are unique. " ++ baseComment))
    | .ok document =>
      if document.length = 0 then
        .ok { ruleError with Comment := "Document field does not exist." }
      else
        match documentLoop ruleError baseComment document [] with
        | DocFlow.ret r => .ok r
        | DocFlow.exit invalid =>
          if invalid then
            .ok (ruleError.failWith ("Document field is not formatted correctly. Cannot check if the set of documents are unique. " ++ baseComment))
          else .ok ruleError

/-! ## The engine -/

def RunValidation (v : baseVal) (capStat : Option CapabilityStatement) (httpResponse : Int)
    (mimeTypes : List String) (fhirVersion : String) (tlsVersion : String)
    (smartHTTPRsp : Int) : Except Panic Validation := do
  let validationResults : List Rule := []
  let validationWarnings : List Rule := []
  let returnedRule := CapStatExists v capStat
  let validationResults := validationResults ++ [returnedRule]
  let returnedRule := MimeTypeValid v mimeTypes fhirVersion
  let validationResults := validationResults ++ [returnedRule]
  let returnedRule := HTTPResponseValid v httpResponse
  let validationResults := validationResults ++ [returnedRule]
  let returnedRule := v.FhirVersion fhirVersion
  let validationResults := validationResults ++ [returnedRule]
  let returnedRule := TLSVersion tlsVersion
  let validationResults := validationResults ++ [returnedRule]
  let returnedRule := PatientResourceExists capStat
  let validationResults := validationResults ++ [returnedRule]
  let returnedRule := OtherResourceExists capStat
  let validationResults := validationResults ++ [returnedRule]
  let returnedRule := SmartHTTPResponseValid v smartHTTPRsp
  let validationResults := validationResults ++ [returnedRule]
  let returnedRules ← KindValid v capStat
  let validationResults ←
    match returnedRules with
    | r0 :: r1 :: _ => pure (validationResults ++ [r0, r1])
    | _ => throw Panic.indexOutOfRange
  let returnedRule ← MessagingEndpointValid v capStat
  let validationResults := validationResults ++ [returnedRule]
  let returnedRule ← EndpointFunctionValid capStat
  let validationResults := validationResults ++ [returnedRule]
  let returnedRule ← DescribeEndpointValid capStat
  let validationResults := validationResults ++ [returnedRule]
  let returnedRule ← DocumentSetValid capStat
  let validationResults := validationResults ++ [returnedRule]
  let returnedRule := UniqueResources capStat
  let validationResults := validationResults ++ [returnedRule]
  let returnedRule := SearchParamsUnique capStat
  let validationResults := validationResults ++ [returnedRule]
  pure { Results := validationResults, Warnings := validationWarnings }

/-! ## Vocabulary of the specification

The definitions below are not embedded code: they name the notions in which the
properties of the rules are stated. -/

/-- The type of a resource, when the `type` field is present and a string. -/
def typeOf (resource : Object) : Option String :=
  match Object.index resource "type" with
  | Value.str typeStr => some typeStr
  | _ => none

/-- The REST blocks of a document (none when the `rest` accessor fails). -/
def restBlocks (cs : CapabilityStatement) : List Object :=
  match cs.GetRest with
  | .ok rest => rest
  | .error _ => []

/-- The resources of one REST block (none when its resource list cannot be read). -/
def resourcesOf (cs : CapabilityStatement) (restElem : Object) : List Object :=
  match cs.GetResourceList restElem with
  | .ok resourceList => resourceList
  | .error _ => []

/-- The resources of a list of REST blocks, in iteration order. -/
def resourcesOfBlocks (cs : CapabilityStatement) : List Object → List Object
  | [] => []
  | restElem :: rest => resourcesOf cs restElem ++ resourcesOfBlocks cs rest

/-- The string types of a list of resources, in order. -/
def typesOf : List Object → List String
  | [] => []
  | resource :: resourceList =>
    match typeOf resource with
    | some typeStr => typeStr :: typesOf resourceList
    | none => typesOf resourceList

/-- All resources of a document, over all REST blocks in iteration order. -/
def allResources (cs : CapabilityStatement) : List Object :=
  resourcesOfBlocks cs (restBlocks cs)

/-- The sequence of resource types of a document, over all REST blocks in iteration order. -/
def resourceTypes (cs : CapabilityStatement) : List String :=
  typesOf (allResources cs)

/-- Every resource of the list has a string type. -/
def allTyped (resourceList : List Object) : Bool :=
  resourceList.all fun resource => (typeOf resource).isSome

/-- A REST block without structural failure: its resource list is read, is not empty, and
every resource has a string type. -/
def blockOK (cs : CapabilityStatement) (restElem : Object) : Bool :=
  match cs.GetResourceList restElem with
  | .ok resourceList => !resourceList.isEmpty && allTyped resourceList
  | .error _ => false

/-- A document without structural failure: `rest` is present and every block is `blockOK`. -/
def noStructuralFailure (cs : CapabilityStatement) : Bool :=
  match cs.GetRest with
  | .ok rest => rest.all (blockOK cs)
  | .error _ => false

/-- The four resource-list rules. -/
inductive ListRule where
  | patient
  | other
  | unique
  | searchParams
  deriving DecidableEq, Repr

/-- The rule option under which a resource-list rule calls `checkResourceList`. -/
def ListRule.option : ListRule → RuleOption
  | ListRule.patient => RuleOption.PatResourceExists
  | ListRule.other => RuleOption.OtherResourceExists
  | ListRule.unique => RuleOption.UniqueResourcesRule
  | ListRule.searchParams => RuleOption.SearchParamsRule

/-- The evaluator of a resource-list rule. -/
def ListRule.run : ListRule → Option CapabilityStatement → Rule
  | ListRule.patient => PatientResourceExists
  | ListRule.other => OtherResourceExists
  | ListRule.unique => UniqueResources
  | ListRule.searchParams => SearchParamsUnique

/-- The baseline sentence of a resource-list rule. -/
def ListRule.baseline : ListRule → String
  | ListRule.patient => "The US Core Server SHALL support the US Core Patient resource profile."
  | ListRule.other => "The US Core Server SHALL support at least one additional resource profile (besides Patient) from the list of US Core Profiles. "
  | ListRule.unique => "A given resource can only be described once per RESTful mode."
  | ListRule.searchParams => "Search parameter names must be unique in the context of a resource."

/-- The rule has returned on one of the resources whose types are given: the Patient rule
on a Patient type, the other-resource rule on a US Core type, the uniqueness rule on a
repeated type; the search-parameter rule never returns on a well-typed resource. -/
def ListRule.returnsOn (k : ListRule) (types : List String) : Bool :=
  match k with
  | ListRule.patient => decide ("Patient" ∈ types)
  | ListRule.other => types.any fun typeStr => decide (typeStr ∈ usCoreProfiles)
  | ListRule.unique => !decide types.Nodup
  | ListRule.searchParams => false

/-- The name of one `searchParam` entry: defined when the entry is an object whose `name`
is a string. -/
def paramName : Value → Option String
  | Value.obj obj =>
    match Object.index obj "name" with
    | Value.str nameStr => some nameStr
    | _ => none
  | _ => none

/-- The names of a list of `searchParam` entries, defined when every entry has a name. -/
def namesOf : List Value → Option (List String)
  | [] => some []
  | elem :: searchList =>
    match paramName elem, namesOf searchList with
    | some nameStr, some names => some (nameStr :: names)
    | _, _ => none

/-- The search-parameter names that a resource declares: none at all when it has no
`searchParam`, and undefined when `searchParam` is not a list of objects with string names. -/
def searchParamNames (resource : Object) : Option (List String) :=
  match Object.index resource "searchParam" with
  | Value.null => some []
  | Value.arr searchList => namesOf searchList
  | _ => none

/-- The message that the search-parameter rule adds for one resource. -/
def searchParamsMessage (resource : Object) : String :=
  match typeOf resource with
  | none => ""
  | some typeStr =>
    match areSearchParamsValid resource with
    | .error _ => "The resource type " ++ typeStr ++ " is not formatted properly. "
    | .ok false => "The resource type " ++ typeStr ++ " does not have unique searchParams. "
    | .ok true => ""

/-- The code accepts the search parameters of the resource. -/
def paramsOK (resource : Object) : Bool :=
  match areSearchParamsValid resource with
  | .ok true => true
  | _ => false

/-- The rule value with which `checkResourceList` starts. -/
def initialRule (rule : RuleOption) : Rule :=
  { RuleName := rule, Valid := true, Expected := "true", Actual := "", Comment := "",
    Reference := "", ImplGuide := "USCore 3.1" }

/-- Concatenation of a list of texts, in order. -/
def concat : List String → String
  | [] => ""
  | text :: texts => text ++ concat texts

/-- The uniqueness key of a document entry: `profile`, a dot, `mode`, when both are strings. -/
def docKey (doc : Object) : Option String :=
  match Object.index doc "mode", Object.index doc "profile" with
  | Value.str modeStr, Value.str profileStr => some (profileStr ++ "." ++ modeStr)
  | _, _ => none

/-- The keys of a list of document entries, one per entry that has a key. -/
def docKeys : List Object → List String
  | [] => []
  | doc :: document =>
    match docKey doc with
    | some key => key :: docKeys document
    | none => docKeys document

/-- Every entry of the list has a string mode and a string profile. -/
def allKeyed (document : List Object) : Bool :=
  document.all fun doc => (docKey doc).isSome

/-- The pair `(profile, mode)` of a document entry, when both are strings. -/
def docPair (doc : Object) : Option (String × String) :=
  match Object.index doc "mode", Object.index doc "profile" with
  | Value.str modeStr, Value.str profileStr => some (profileStr, modeStr)
  | _, _ => none

/-- Does the text start with the pattern? -/
def startsWith : List Char → List Char → Bool
  | [], _ => true
  | _ :: _, [] => false
  | p :: pattern, c :: text => p == c && startsWith pattern text

/-- The number of positions of the text at which the (non-empty) pattern occurs. -/
def occurrences (pattern : List Char) : List Char → Nat
  | [] => 0
  | c :: text => (if startsWith pattern (c :: text) then 1 else 0) + occurrences pattern text

/-- The structural failures that stop a resource-list rule. -/
inductive Cause where
  | noDocument
  | noRest
  | noResources
  | badType
  deriving DecidableEq, Repr

/-- The text that `checkResourceList` gives for a structural failure. -/
def Cause.text : Cause → String
  | Cause.noDocument => "The Capability Statement does not exist; cannot check resource profiles. "
  | Cause.noRest => "Rest field does not exist. "
  | Cause.noResources => "The Resource Profiles do not exist. "
  | Cause.badType => "The Resource Profiles are not properly formatted. "

/-- In iteration order, the REST block `restElem` comes after the resources `seen`, and
nothing before it is a structural failure. -/
def ReachesBlock (cs : CapabilityStatement) (seen : List Object) (restElem : Object) : Prop :=
  ∃ pre post, cs.GetRest = .ok (pre ++ restElem :: post) ∧
    (∀ b ∈ pre, blockOK cs b = true) ∧ seen = resourcesOfBlocks cs pre

/-- In iteration order, the resource `resource` comes after the resources `seen`, and
nothing before it is a structural failure. -/
def ReachesResource (cs : CapabilityStatement) (seen : List Object) (resource : Object) : Prop :=
  ∃ before restElem lpre lpost, ReachesBlock cs before restElem ∧
    cs.GetResourceList restElem = .ok (lpre ++ resource :: lpost) ∧
    allTyped lpre = true ∧ seen = before ++ lpre

/-- The first structural problem of a document in iteration order is `cause`, and `seen`
are the resources that come before it. -/
inductive FirstFailure : Option CapabilityStatement → List Object → Cause → Prop
  | noDocument : FirstFailure none [] Cause.noDocument
  | noRest (cs : CapabilityStatement) (e : String) :
      cs.GetRest = .error e → FirstFailure (some cs) [] Cause.noRest
  | unreadable (cs : CapabilityStatement) (seen : List Object) (restElem : Object) (e : String) :
      ReachesBlock cs seen restElem → cs.GetResourceList restElem = .error e →
      FirstFailure (some cs) seen Cause.noResources
  | empty (cs : CapabilityStatement) (seen : List Object) (restElem : Object) :
      ReachesBlock cs seen restElem → cs.GetResourceList restElem = .ok [] →
      FirstFailure (some cs) seen Cause.noResources
  | badType (cs : CapabilityStatement) (seen : List Object) (resource : Object) :
      ReachesResource cs seen resource → typeOf resource = none →
      FirstFailure (some cs) seen Cause.badType

/-! ## Example documents -/

/-- A resource with the given type and nothing else. -/
def resourceOfType (typeStr : String) : Object := [("type", Value.str typeStr)]

/-- A REST block with the given resources. -/
def restBlock (resourceList : List Object) : Object :=
  [("resource", Value.arr (resourceList.map Value.obj))]

/-- A document entry with the given mode and profile. -/
def docEntry (modeStr profileStr : String) : Object :=
  [("mode", Value.str modeStr), ("profile", Value.str profileStr)]

/-- Reads the `resource` list of a REST block built by `restBlock`. -/
def exampleResourceList (restElem : Object) : Accessor (List Object) :=
  match Object.index restElem "resource" with
  | Value.arr entries =>
    .ok (entries.filterMap fun entry =>
      match entry with
      | Value.obj obj => some obj
      | _ => none)
  | _ => .error "unable to read the resource list"

/-- A document with the given REST blocks and document entries, an implementation, and no
other field. -/
def exampleDocument (rest : List Object) (document : List Object) : CapabilityStatement :=
  { GetRest := .ok rest,
    GetResourceList := exampleResourceList,
    GetMessaging := .ok [],
    GetMessagingEndpoint := fun _ => .ok [],
    GetDocument := .ok document,
    GetDescription := .ok "",
    GetSoftware := .ok [],
    GetImplementation := .ok [("description", Value.str "example")] }

/-- A base rule set whose checks always pass. -/
def exampleBase : baseVal :=
  let pass (name : String) : Rule :=
    { RuleName := RuleOption.other name, Valid := true, Expected := "", Actual := "",
      Comment := "", Reference := "", ImplGuide := "" }
  { CapStatExists := fun _ => pass "capStatExists",
    MimeTypeValid := fun _ _ => pass "mimeType",
    HTTPResponseValid := fun _ => pass "httpResponse",
    FhirVersion := fun _ => pass "fhirVersion",
    KindValid := fun _ => [pass "kind"] }

/-- The report of the engine, or an empty report when the engine panics. -/
def reportOf (result : Except Panic Validation) : Validation :=
  match result with
  | .ok report => report
  | .error _ => { Results := [], Warnings := [] }

/-- A document whose single REST block holds a Patient resource followed by a resource
without a type. -/
def untypedAfterPatient : CapabilityStatement :=
  exampleDocument [restBlock [resourceOfType "Patient", []]] []

/-- A document whose first REST block has an empty resource list and whose second block
holds a Patient resource. -/
def patientAfterEmptyBlock : CapabilityStatement :=
  exampleDocument [restBlock [], restBlock [resourceOfType "Patient"]] []

/-- A document whose single REST block holds an Observation resource followed by a resource
without a type. -/
def untypedAfterObservation : CapabilityStatement :=
  exampleDocument [restBlock [resourceOfType "Observation", []]] []

/-- A document whose single REST block holds one Patient resource. -/
def patientOnly : CapabilityStatement :=
  exampleDocument [restBlock [resourceOfType "Patient"]] []

/-- A document with two REST blocks, each holding one Patient resource. -/
def patientInTwoBlocks : CapabilityStatement :=
  exampleDocument [restBlock [resourceOfType "Patient"], restBlock [resourceOfType "Patient"]] []

/-- A document whose single REST block holds the resource types Patient, Observation,
Patient. -/
def patientTwiceInBlock : CapabilityStatement :=
  exampleDocument
    [restBlock [resourceOfType "Patient", resourceOfType "Observation", resourceOfType "Patient"]]
    []

/-- A `searchParam` entry with the given name. -/
def searchParam (nameStr : String) : Value := Value.obj [("name", Value.str nameStr)]

/-- A document whose single REST block holds a Patient resource that declares the search
parameter `name` twice, an Encounter resource with distinct search parameters, and an
Observation resource whose `searchParam` is a number. -/
def badSearchParams : CapabilityStatement :=
  exampleDocument
    [restBlock
      [[("type", Value.str "Patient"),
        ("searchParam", Value.arr [searchParam "name", searchParam "name"])],
       [("type", Value.str "Encounter"),
        ("searchParam", Value.arr [searchParam "date", searchParam "status"])],
       [("type", Value.str "Observation"), ("searchParam", Value.num 3)]]]
    []

/-- The rule value with which `DocumentSetValid` starts, which is also its passing result. -/
def documentRule : Rule :=
  { RuleName := RuleOption.DocumentValidRule,
    Valid := true,
    Expected := "true",
    Actual := "true",
    Comment := "The set of documents must be unique by the combination of profile and mode.",
    Reference := "http://hl7.org/fhir/capabilitystatement.html",
    ImplGuide := "USCore 3.1" }

/-- The pairs `(profile, mode)` of a list of document entries, one per entry that has one. -/
def docPairs : List Object → List (String × String)
  | [] => []
  | doc :: document =>
    match docPair doc with
    | some pair => pair :: docPairs document
    | none => docPairs document

/-- A document with two document entries of different (profile, mode) pairs, (a.b, c) and
(a, b.c), whose keys are both "a.b.c". -/
def collidingDocuments : CapabilityStatement :=
  exampleDocument [] [docEntry "c" "a.b", docEntry "b.c" "a"]

/-- A document with the two document entries (producer, A) and (consumer, A). -/
def producerAndConsumer : CapabilityStatement :=
  exampleDocument [] [docEntry "producer" "A", docEntry "consumer" "A"]

/-! ## Vocabulary for the presence, messaging and response rules -/

/-- The accessor succeeds with a non-empty list. -/
def nonEmptyList {α : Type} (result : Accessor (List α)) : Bool :=
  match result with
  | .ok value => !value.isEmpty
  | .error _ => false

/-- The accessor succeeds with a non-empty string. -/
def nonEmptyString (result : Accessor String) : Bool :=
  match result with
  | .ok value => decide (value ≠ "")
  | .error _ => false

/-- The names of the candidates that are present, in the order of the candidates. -/
def presentNames : List (String × Bool) → List String
  | [] => []
  | (name, true) :: candidates => name :: presentNames candidates
  | (_, false) :: candidates => presentNames candidates

/-- The candidates of EndpointFunctionValid, each with its presence in the document. -/
def functionCandidates (cs : CapabilityStatement) : List (String × Bool) :=
  [("rest", nonEmptyList cs.GetRest), ("messaging", nonEmptyList cs.GetMessaging),
   ("document", nonEmptyList cs.GetDocument)]

/-- The candidates of DescribeEndpointValid, each with its presence in the document. -/
def describeCandidates (cs : CapabilityStatement) : List (String × Bool) :=
  [("description", nonEmptyString cs.GetDescription), ("software", nonEmptyList cs.GetSoftware),
   ("implementation", nonEmptyList cs.GetImplementation)]

/-- The baseline sentence of MessagingEndpointValid. -/
def messagingBaseline : String :=
  "Messaging end-point is required (and is only permitted) when a statement is for an implementation. This endpoint must be an implementation."

/-- The rule value with which MessagingEndpointValid starts, which is also its passing
result. -/
def messagingRule : Rule :=
  { RuleName := RuleOption.MessagingEndptRule,
    Valid := true,
    Expected := "true",
    Actual := "true",
    Comment := messagingBaseline,
    Reference := "http://hl7.org/fhir/capabilitystatement.html",
    ImplGuide := "USCore 3.1" }

/-- The endpoint accessor of a messaging entry succeeds with a non-empty list. -/
def hasEndpoints (cs : CapabilityStatement) (message : Object) : Bool :=
  nonEmptyList (cs.GetMessagingEndpoint message)

/-- Modelled from the spec: the base HTTP-response check `baseVal.HTTPResponseValid`, whose
code is not among the sources. It passes if and only if the status is 200 or the sentinel 0
for "no request attempted"; any other status fails and the comment embeds the status. -/
def specHTTPResponseValid (httpResponse : Int) : Rule :=
  { RuleName := RuleOption.other "httpResponse",
    Valid := decide (httpResponse = 200 ∨ httpResponse = 0),
    Expected := "200",
    Actual := Itoa httpResponse,
    Comment :=
      if httpResponse = 200 ∨ httpResponse = 0 then ""
      else "The HTTP response code was " ++ Itoa httpResponse ++ " instead of 200. ",
    Reference := "",
    ImplGuide := "" }

/-- The base rule set of the examples, with the HTTP-response check of the spec. -/
def specBase : baseVal :=
  { exampleBase with HTTPResponseValid := specHTTPResponseValid }

/-- A document with one messaging entry that has an endpoint and one that has none. -/
def messagingWithoutEndpoint : CapabilityStatement :=
  { patientOnly with
    GetMessaging := .ok [[("endpoint", Value.arr [Value.obj []])], []],
    GetMessagingEndpoint := fun message =>
      match Object.index message "endpoint" with
      | Value.arr entries => .ok (entries.map fun _ => [])
      | _ => .error "no endpoint" }

/-- The invariant of the rule value in `checkResourceList`: Expected is "true", the guide is
"USCore 3.1", and the rule is either valid with empty Actual and empty comment, or invalid
with Actual "false". -/
def listRuleInvariant (r : Rule) : Prop :=
  r.Expected = "true" ∧ r.ImplGuide = "USCore 3.1" ∧
    ((r.Valid = true ∧ r.Actual = "" ∧ r.Comment = "") ∨ (r.Valid = false ∧ r.Actual = "false"))

end R4Validation

/-!
# Lantern back end: the capability querier

A shallow embedding of `capabilityquerier/pkg/capabilityquerier/capabilityquerier.go`.

* An HTTP client is a function from the `Accept` headers of the requests made so far and the
  `Accept` header of the current request to the outcome of `client.Do`; the list of headers
  sent is threaded through the functions, so the requests issued can be counted.
* Go errors are their texts; `errors.Wrapf` puts the message and a colon before the cause.
* URL normalisation, request construction, JSON decoding and encoding, and the queue are
  outside these sources and are parameters (`Env`).
-/

namespace CapabilityQuerier

open R4Validation (Value startsWith)

/-! ## Constants -/

def fhir3PlusJSONMIMEType : String := "application/fhir+json"
def fhir2LessJSONMIMEType : String := "application/json+fhir"

def ssl30 : String := "SSL 3.0"
def tls10 : String := "TLS 1.0"
def tls11 : String := "TLS 1.1"
def tls12 : String := "TLS 1.2"
def tls13 : String := "TLS 1.3"
def tlsUnknown : String := "TLS version unknown"
def tlsNone : String := "No TLS"

/-- Go `http.StatusOK`. -/
def StatusOK : Int := 200

/-- Go `tls.VersionSSL30`. -/
def VersionSSL30 : Nat := 0x0300
/-- Go `tls.VersionTLS10`. -/
def VersionTLS10 : Nat := 0x0301
/-- Go `tls.VersionTLS11`. -/
def VersionTLS11 : Nat := 0x0302
/-- Go `tls.VersionTLS12`. -/
def VersionTLS12 : Nat := 0x0303
/-- Go `tls.VersionTLS13`. -/
def VersionTLS13 : Nat := 0x0304

/-! ## Data model -/

/-- A Go `[]byte` that is not `nil`. -/
abbrev Bytes := List Nat

/-- The record `Message` that is put on the queue. -/
structure Message where
  URL : String
  Err : String
  MIMETypes : List String
  TLSVersion : String
  HTTPResponse : Int
  CapabilityStatement : Value

/-- The parts of an `http.Response` that the querier reads: the status code, the
`Content-Type` header, the TLS connection state (`nil`, or its `Version`, a `uint16`), and
what `ioutil.ReadAll(resp.Body)` returns (the bytes read, never `nil`, or an error). -/
structure Response where
  StatusCode : Int
  ContentType : String
  TLS : Option Nat
  Body : Except String Bytes

/-- An `http.Client`: the outcome of `client.Do` for a request with the given `Accept`
header, after the requests with the given earlier `Accept` headers. -/
abbrev Client := List String → String → Except String Response

/-- The collaborators outside these sources: `endpointmanager.NormalizeEndpointURL`, the
error of `http.NewRequest` on a URL (if any), the text `req.URL.String()` of the request that
`http.NewRequest` creates from a URL, `json.Unmarshal` into an empty interface,
`json.Marshal` of a message, and `accessqueue.SendToQueue` (its error, if any). -/
structure Env where
  NormalizeEndpointURL : String → String
  NewRequest : String → Option String
  RequestURL : String → String
  Unmarshal : Bytes → Except String Value
  Marshal : Message → Except String String
  SendToQueue : String → Option String

/-- The five results of `requestWithMimeType`. -/
structure Fetch where
  httpResponseCode : Int
  tlsVersion : String
  mimeMatches : Bool
  capStat : Option Bytes
  err : Option String

/-- The record `QuerierArgs`, without the queue connection (which is in `Env`). -/
structure QuerierArgs where
  FhirURL : String
  Client : Client
  QueueName : String

/-! ## Functions -/

/-- Go `errors.Wrap` and `errors.Wrapf`: the text of the wrapped error. -/
def Wrapf (err : String) (message : String) : String := message ++ ": " ++ err

/-- Go `strings.Contains` on the characters of the text. -/
def containsChars (substr : List Char) : List Char → Bool
  | [] => startsWith substr []
  | c :: text => startsWith substr (c :: text) || containsChars substr text

/-- Go `strings.Contains`. -/
def Contains (s substr : String) : Bool := containsChars substr.toList s.toList

def getTLSVersion (resp : Response) : String :=
  match resp.TLS with
  | some version =>
    if version = VersionSSL30 then ssl30
    else if version = VersionTLS10 then tls10
    else if version = VersionTLS11 then tls11
    else if version = VersionTLS12 then tls12
    else if version = VersionTLS13 then tls13
    else tlsUnknown
  | none => tlsNone

def isJSONMIMEType (mimeType : String) : Bool := Contains mimeType "json"

/-- The function `requestWithMimeType` for a request whose `req.URL.String()` is `url`; `log`
holds the `Accept` headers of the requests made before, and the result holds those made
after. -/
def requestWithMimeType (url : String) (mimeType : String) (client : Client)
    (log : List String) : Fetch × List String :=
  match client log mimeType with
  | .error err =>
    ({ httpResponseCode := -1, tlsVersion := "", mimeMatches := false, capStat := none,
       err := some (Wrapf err ("making the GET request to " ++ url ++ " failed")) },
     log ++ [mimeType])
  | .ok resp =>
    let httpResponseCode := resp.StatusCode
    if httpResponseCode = StatusOK then
      let respMimeType := resp.ContentType
      if isJSONMIMEType respMimeType then
        match resp.Body with
        | .error err =>
          ({ httpResponseCode := -1, tlsVersion := "", mimeMatches := false, capStat := none,
             err := some (Wrapf err ("reading the response from " ++ url ++ " failed")) },
           log ++ [mimeType])
        | .ok capStat =>
          ({ httpResponseCode := httpResponseCode, tlsVersion := getTLSVersion resp,
             mimeMatches := true, capStat := some capStat, err := none },
           log ++ [mimeType])
      else
        ({ httpResponseCode := httpResponseCode, tlsVersion := getTLSVersion resp,
           mimeMatches := false, capStat := none, err := none },
         log ++ [mimeType])
    else
      ({ httpResponseCode := httpResponseCode, tlsVersion := getTLSVersion resp,
         mimeMatches := false, capStat := none, err := none },
       log ++ [mimeType])

/-- The end of `requestCapabilityStatement`, after the two requests: the message is filled
in and the body, if any, is decoded. -/
def recordResults (env : Env) (message : Message) (httpResponseCode : Int)
    (tlsVersion : String) (supportsFHIR3MIMEType supportsFHIR2MIMEType : Bool)
    (capResp : Option Bytes) : Message × Option String :=
  let message := { message with HTTPResponse := httpResponseCode }
  let message := { message with TLSVersion := tlsVersion }
  let message :=
    if supportsFHIR2MIMEType then
      { message with MIMETypes := message.MIMETypes ++ [fhir2LessJSONMIMEType] }
    else message
  let message :=
    if supportsFHIR3MIMEType then
      { message with MIMETypes := message.MIMETypes ++ [fhir3PlusJSONMIMEType] }
    else message
  match capResp with
  | some body =>
    match env.Unmarshal body with
    | .error err => (message, some err)
    | .ok value => ({ message with CapabilityStatement := value }, none)
  | none => (message, none)

/-- The function `requestCapabilityStatement`: the message as it is left, the error
returned (if any), and the `Accept` headers of the requests made. -/
def requestCapabilityStatement (env : Env) (fhirURL : String) (client : Client)
    (message : Message) : Message × Option String × List String :=
  let normalizedURL := env.NormalizeEndpointURL fhirURL
  match env.NewRequest normalizedURL with
  | some err =>
    (message, some (Wrapf err ("unable to create new GET request from URL: " ++ normalizedURL)),
     [])
  | none =>
    let reqURL := env.RequestURL normalizedURL
    let (first, log) := requestWithMimeType reqURL fhir3PlusJSONMIMEType client []
    match first.err with
    | some err => (message, some err, log)
    | none =>
      if first.httpResponseCode ≠ StatusOK ∨ first.mimeMatches = false then
        let (second, log) := requestWithMimeType reqURL fhir2LessJSONMIMEType client log
        match second.err with
        | some err => (message, some err, log)
        | none =>
          let (message, err) := recordResults env message second.httpResponseCode
            second.tlsVersion first.mimeMatches second.mimeMatches second.capStat
          (message, err, log)
      else
        let (second, log) := requestWithMimeType reqURL fhir2LessJSONMIMEType client log
        match second.err with
        | some err => (message, some err, log)
        | none =>
          let (message, err) := recordResults env message first.httpResponseCode
            first.tlsVersion first.mimeMatches second.mimeMatches first.capStat
          (message, err, log)

/-- What `GetAndSendCapabilityStatement` does: the message that it builds (none when the
arguments cannot be cast), the error that it returns (if any), and the `Accept` headers of
the requests made. -/
structure Sent where
  message : Option Message
  err : Option String
  requests : List String

/-- The function `GetAndSendCapabilityStatement`; `args` is the value under the key
`querierArgs` when it is a `QuerierArgs`. -/
def GetAndSendCapabilityStatement (env : Env) (args : Option QuerierArgs) : Sent :=
  match args with
  | none =>
    { message := none,
      err := some "unable to cast querierArgs to type QuerierArgs from arguments",
      requests := [] }
  | some qa =>
    let message : Message :=
      { URL := qa.FhirURL, Err := "", MIMETypes := [], TLSVersion := "", HTTPResponse := 0,
        CapabilityStatement := Value.null }
    let (message, err, log) := requestCapabilityStatement env qa.FhirURL qa.Client message
    let message :=
      match err with
      | some text => { message with Err := text }
      | none => message
    match env.Marshal message with
    | .error err =>
      { message := some message,
        err := some (Wrapf err ("error marshalling json message for request to " ++ qa.FhirURL)),
        requests := log }
    | .ok msgStr =>
      match env.SendToQueue msgStr with
      | some err =>
        { message := some message,
          err := some (Wrapf err ("error sending capability statement for FHIR endpoint "
            ++ qa.FhirURL ++ " to queue '" ++ qa.QueueName ++ "'")),
          requests := log }
      | none => { message := some message, err := none, requests := log }

/-! ## Vocabulary of the specification of the querier -/

/-- The response answers the request with HTTP 200 and a JSON content type. -/
def fetched (resp : Response) : Bool :=
  decide (resp.StatusCode = 200) && Contains resp.ContentType "json"

/-- Reading the body of the response fails; the body is read only when the response is
`fetched`. -/
def readFails (resp : Response) : Bool :=
  fetched resp &&
    match resp.Body with
    | .error _ => true
    | .ok _ => false

/-- The body that a fetch takes from the response: the bytes read when the response is
`fetched`, otherwise `nil`. -/
def bodyOf (resp : Response) : Option Bytes :=
  if fetched resp then
    match resp.Body with
    | .ok body => some body
    | .error _ => none
  else none

/-- The capability statement recorded for a body: the decoded value, or the earlier value
when there is no body or it cannot be decoded. -/
def decoded (env : Env) (body : Option Bytes) (earlier : Value) : Value :=
  match body with
  | some bytes =>
    match env.Unmarshal bytes with
    | .ok value => value
    | .error _ => earlier
  | none => earlier

/-- The first fetch of a probe: the request for the modern type. -/
def firstFetch (env : Env) (fhirURL : String) (client : Client) : Fetch :=
  (requestWithMimeType (env.RequestURL (env.NormalizeEndpointURL fhirURL))
    fhir3PlusJSONMIMEType client []).1

/-- The second fetch of a probe: the request for the legacy type, after the first. -/
def secondFetch (env : Env) (fhirURL : String) (client : Client) : Fetch :=
  (requestWithMimeType (env.RequestURL (env.NormalizeEndpointURL fhirURL))
    fhir2LessJSONMIMEType client [fhir3PlusJSONMIMEType]).1

/-- The seven literals of the TLS enumeration. -/
def tlsLiterals : List String := [ssl30, tls10, tls11, tls12, tls13, tlsUnknown, tlsNone]

/-- The message with which `GetAndSendCapabilityStatement` starts. -/
def initialMessage (url : String) : Message :=
  { URL := url, Err := "", MIMETypes := [], TLSVersion := "", HTTPResponse := 0,
    CapabilityStatement := Value.null }

/-- The authoritative response of a probe: the first when it is `fetched`, otherwise the
second. -/
def authoritative (first second : Response) : Response :=
  if fetched first then first else second

/-- The authoritative body of a probe: the body taken from the authoritative response. -/
def authoritativeBody (first second : Response) : Option Bytes :=
  bodyOf (authoritative first second)

/-- The MIME types that a probe adds: the legacy type if the second response matched, then
the modern type if the first response matched. -/
def matchedTypes (first second : Response) : List String :=
  (if fetched second then [fhir2LessJSONMIMEType] else []) ++
    (if fetched first then [fhir3PlusJSONMIMEType] else [])

/-! ## Example endpoints -/

/-- Collaborators that never fail; every body decodes to an empty object. -/
def exampleEnv : Env :=
  { NormalizeEndpointURL := fun url => url,
    NewRequest := fun _ => none,
    RequestURL := fun url => url,
    Unmarshal := fun _ => .ok (Value.obj []),
    Marshal := fun _ => .ok "",
    SendToQueue := fun _ => none }

/-- A response with HTTP 200, a JSON content type, TLS 1.2 and the body `{}`. -/
def jsonResponse : Response :=
  { StatusCode := 200, ContentType := "application/fhir+json; charset=utf-8",
    TLS := some VersionTLS12, Body := .ok [123, 125] }

/-- A response with HTTP 404 and a JSON content type, over a connection without TLS. -/
def notFoundResponse : Response :=
  { StatusCode := 404, ContentType := "application/json", TLS := none, Body := .ok [] }

/-- A client that gives the same response to every request. -/
def steadyClient (resp : Response) : Client := fun _ _ => .ok resp

/-- A client whose every request fails at transport level. -/
def failingClient : Client := fun _ _ => .error "connection refused"

/-- A client that answers the first request with `jsonResponse` and fails at transport
level on every later request. -/
def failsOnSecond : Client := fun log _ =>
  match log with
  | [] => .ok jsonResponse
  | _ :: _ => .error "connection reset"

/-- Collaborators that never fail, except that no body decodes as JSON. -/
def strictEnv : Env :=
  { exampleEnv with Unmarshal := fun _ => .error "unexpected end of JSON input" }

/-- The arguments of a probe of the example endpoint with the given client. -/
def exampleArgs (client : Client) : QuerierArgs :=
  { FhirURL := "https://example.org/fhir", Client := client, QueueName := "capabilities" }

end CapabilityQuerier

namespace R4Validation

/-! ## Lemmas on the loops of `checkResourceList` -/

theorem stringInList_iff (str : String) (list : List String) :
    stringInList str list = true ↔ str ∈ list := by
  induction list with
  | nil => simp [stringInList]
  | cons b list ih =>
    simp only [stringInList, List.mem_cons]
    by_cases h : b = str
    · simp [h]
    · simp only [h, if_false, ih]
      constructor
      · exact Or.inr
      · rintro (h1 | h1)
        · exact absurd h1.symm h
        · exact h1

theorem index_type_of_typeOf {resource : Object} {typeStr : String}
    (h : typeOf resource = some typeStr) : Object.index resource "type" = Value.str typeStr := by
  unfold typeOf at h
  split at h
  · rename_i s hs; cases h; exact hs
  · cases h

theorem resourceLoop_append (rule : RuleOption) (l1 l2 : List Object) (r : Rule)
    (u : List String) :
    resourceLoop rule (l1 ++ l2) r u =
      match resourceLoop rule l1 r u with
      | Flow.ret x => Flow.ret x
      | Flow.next r1 u1 => resourceLoop rule l2 r1 u1 := by
  induction l1 generalizing r u with
  | nil => rfl
  | cons x xs ih =>
    simp only [List.cons_append, resourceLoop]
    cases resourceBody rule x r u with
    | ret y => rfl
    | next r1 u1 => exact ih r1 u1

theorem blockOK_iff (cs : CapabilityStatement) (b : Object) :
    blockOK cs b = true ↔
      ∃ l, cs.GetResourceList b = .ok l ∧ l ≠ [] ∧ allTyped l = true := by
  unfold blockOK
  cases h : cs.GetResourceList b with
  | error e => simp
  | ok l => cases l <;> simp

theorem restLoop_blocks (cs : CapabilityStatement) (rule : RuleOption) (pre post : List Object)
    (r : Rule) (u : List String) (hpre : ∀ b ∈ pre, blockOK cs b = true) :
    restLoop cs rule (pre ++ post) r u =
      match resourceLoop rule (resourcesOfBlocks cs pre) r u with
      | Flow.ret x => x
      | Flow.next r1 u1 => restLoop cs rule post r1 u1 := by
  induction pre generalizing r u with
  | nil => rfl
  | cons b bs ih =>
    obtain ⟨l, hl, hne, -⟩ := (blockOK_iff cs b).1 (hpre b (List.mem_cons_self _ _))
    have hlen : l.length ≠ 0 := by
      cases l with
      | nil => exact absurd rfl hne
      | cons _ _ => simp
    simp only [List.cons_append, restLoop, hl, hlen, if_false, resourcesOfBlocks, resourcesOf,
      resourceLoop_append]
    cases resourceLoop rule l r u with
    | ret y => rfl
    | next r1 u1 => exact ih r1 u1 (fun b hb => hpre b (List.mem_cons_of_mem _ hb))

theorem allTyped_cons (x : Object) (xs : List Object) :
    allTyped (x :: xs) = true ↔ (∃ s, typeOf x = some s) ∧ allTyped xs = true := by
  simp [allTyped, Option.isSome_iff_exists]

theorem typesOf_cons_of_typeOf {x : Object} {s : String} (h : typeOf x = some s)
    (xs : List Object) : typesOf (x :: xs) = s :: typesOf xs := by
  simp [typesOf, h]

theorem typesOf_append (l1 l2 : List Object) : typesOf (l1 ++ l2) = typesOf l1 ++ typesOf l2 := by
  induction l1 with
  | nil => rfl
  | cons x xs ih =>
    simp only [List.cons_append, typesOf]
    cases typeOf x <;> simp [ih]

theorem allTyped_append (l1 l2 : List Object) :
    allTyped (l1 ++ l2) = true ↔ allTyped l1 = true ∧ allTyped l2 = true := by
  simp [allTyped, List.all_append]

theorem resourceLoop_patient (l : List Object) (r : Rule) (u : List String)
    (hl : allTyped l = true) :
    resourceLoop RuleOption.PatResourceExists l r u =
      if "Patient" ∈ typesOf l then Flow.ret r else Flow.next r u := by
  induction l with
  | nil => simp [resourceLoop, typesOf]
  | cons x xs ih =>
    obtain ⟨⟨s, hs⟩, hxs⟩ := (allTyped_cons x xs).1 hl
    rw [typesOf_cons_of_typeOf hs]
    by_cases h : s = "Patient"
    · simp [resourceLoop, resourceBody, index_type_of_typeOf hs, h]
    · have h2 : ¬ "Patient" = s := fun e => h e.symm
      simp [resourceLoop, resourceBody, index_type_of_typeOf hs, h, h2, ih hxs]

theorem resourceLoop_other (l : List Object) (r : Rule) (u : List String)
    (hl : allTyped l = true) :
    resourceLoop RuleOption.OtherResourceExists l r u =
      if ∃ t ∈ typesOf l, t ∈ usCoreProfiles then Flow.ret r else Flow.next r u := by
  induction l with
  | nil => simp [resourceLoop, typesOf]
  | cons x xs ih =>
    obtain ⟨⟨s, hs⟩, hxs⟩ := (allTyped_cons x xs).1 hl
    rw [typesOf_cons_of_typeOf hs]
    by_cases h : s ∈ usCoreProfiles
    · have h1 := (stringInList_iff s usCoreProfiles).2 h
      simp [resourceLoop, resourceBody, index_type_of_typeOf hs, h, h1]
    · have h1 : stringInList s usCoreProfiles = false := by
        rw [← Bool.not_eq_true, stringInList_iff]; exact h
      simp [resourceLoop, resourceBody, index_type_of_typeOf hs, h, h1, ih hxs]

theorem resourceLoop_unique_nodup (l : List Object) (r : Rule) (u : List String)
    (hl : allTyped l = true) (hn : (u ++ typesOf l).Nodup) :
    resourceLoop RuleOption.UniqueResourcesRule l r u = Flow.next r (u ++ typesOf l) := by
  induction l generalizing u with
  | nil => simp [resourceLoop, typesOf]
  | cons x xs ih =>
    obtain ⟨⟨s, hs⟩, hxs⟩ := (allTyped_cons x xs).1 hl
    rw [typesOf_cons_of_typeOf hs] at hn ⊢
    have hsu : s ∉ u := by
      intro hmem
      have := List.nodup_append.1 hn
      exact this.2.2 hmem (List.mem_cons_self _ _)
    have h1 : stringInList s u = false := by
      rw [← Bool.not_eq_true, stringInList_iff]; exact hsu
    have hn2 : (u ++ [s] ++ typesOf xs).Nodup := by simpa using hn
    simp [resourceLoop, resourceBody, index_type_of_typeOf hs, h1, ih (u ++ [s]) hxs hn2]

theorem resourceLoop_unique_dup (l : List Object) (r : Rule) (u pre post : List String)
    (t : String) (hl : allTyped l = true) (ht : typesOf l = pre ++ t :: post)
    (hn : (u ++ pre).Nodup) (hmem : t ∈ u ++ pre) :
    resourceLoop RuleOption.UniqueResourcesRule l r u =
      Flow.ret (r.failWith ("The resource type " ++ t ++ " is not unique. ")) := by
  induction l generalizing u pre with
  | nil => simp [typesOf] at ht
  | cons x xs ih =>
    obtain ⟨⟨s, hs⟩, hxs⟩ := (allTyped_cons x xs).1 hl
    rw [typesOf_cons_of_typeOf hs] at ht
    cases pre with
    | nil =>
      simp only [List.nil_append, List.cons.injEq] at ht
      obtain ⟨rfl, -⟩ := ht
      have h1 := (stringInList_iff s u).2 (by simpa using hmem)
      simp [resourceLoop, resourceBody, index_type_of_typeOf hs, h1]
    | cons p pre1 =>
      simp only [List.cons_append, List.cons.injEq] at ht
      obtain ⟨rfl, ht1⟩ := ht
      have hsu : s ∉ u := by
        intro hm
        exact (List.nodup_append.1 hn).2.2 hm (List.mem_cons_self _ _)
      have h1 : stringInList s u = false := by
        rw [← Bool.not_eq_true, stringInList_iff]; exact hsu
      have hn2 : (u ++ [s] ++ pre1).Nodup := by simpa using hn
      have hm2 : t ∈ u ++ [s] ++ pre1 := by simpa using hmem
      simp [resourceLoop, resourceBody, index_type_of_typeOf hs, h1,
        ih (u ++ [s]) pre1 hxs ht1 hn2 hm2]

theorem exists_first_repeat (l u : List String) (hu : u.Nodup) (h : ¬ (u ++ l).Nodup) :
    ∃ pre t post, l = pre ++ t :: post ∧ (u ++ pre).Nodup ∧ t ∈ u ++ pre := by
  induction l generalizing u with
  | nil => simp at h; exact absurd hu h
  | cons s xs ih =>
    by_cases hs : s ∈ u
    · exact ⟨[], s, xs, rfl, by simpa using hu, by simpa using hs⟩
    · have hu2 : (u ++ [s]).Nodup := by
        rw [List.nodup_append]
        refine ⟨hu, List.nodup_singleton s, ?_⟩
        intro a ha hb
        simp only [List.mem_singleton] at hb
        exact hs (hb ▸ ha)
      have h2 : ¬ (u ++ [s] ++ xs).Nodup := by simpa using h
      obtain ⟨pre, t, post, rfl, hn, hm⟩ := ih (u ++ [s]) hu2 h2
      exact ⟨s :: pre, t, post, rfl, by simpa using hn, by simpa using hm⟩

theorem paramName_obj (obj : Object) :
    paramName (Value.obj obj) =
      match Object.index obj "name" with
      | Value.str nameStr => some nameStr
      | _ => none := rfl

theorem searchParamsLoop_ok_true (l : List Value) (sp : List String) :
    searchParamsLoop l sp = .ok true ↔
      ∃ names, namesOf l = some names ∧ names.Nodup ∧ ∀ n ∈ names, n ∉ sp := by
  induction l generalizing sp with
  | nil => simp [searchParamsLoop, namesOf]
  | cons elem xs ih =>
    cases elem with
    | obj o =>
      cases hn : Object.index o "name" with
      | str n =>
        by_cases hmem : n ∈ sp
        · have h1 := (stringInList_iff n sp).2 hmem
          simp only [searchParamsLoop, hn, h1, if_true, namesOf, paramName_obj, ↓reduceIte]
          constructor
          · intro h; cases h
          · rintro ⟨names, h2, -, h4⟩
            cases hx : namesOf xs with
            | none => simp [hx] at h2
            | some ns =>
              simp only [hx, Option.some.injEq] at h2
              subst h2
              exact absurd hmem (h4 n (List.mem_cons_self _ _))
        · have h1 : stringInList n sp = false := by
            rw [← Bool.not_eq_true, stringInList_iff]; exact hmem
          simp only [searchParamsLoop, hn, h1, namesOf, paramName_obj, Bool.false_eq_true, ↓reduceIte, ih]
          constructor
          · rintro ⟨names, h2, h3, h4⟩
            refine ⟨n :: names, by simp [h2], ?_, ?_⟩
            · refine List.nodup_cons.2 ⟨?_, h3⟩
              intro hm
              exact h4 n hm (by simp)
            · intro m hm
              rcases List.mem_cons.1 hm with rfl | hm
              · exact hmem
              · intro hsp; exact h4 m hm (by simp [hsp])
          · rintro ⟨names, h2, h3, h4⟩
            cases hx : namesOf xs with
            | none => simp [hx] at h2
            | some ns =>
              simp only [hx, Option.some.injEq] at h2
              subst h2
              refine ⟨ns, rfl, (List.nodup_cons.1 h3).2, ?_⟩
              intro m hm hsp
              rcases List.mem_append.1 hsp with hsp | hsp
              · exact h4 m (List.mem_cons_of_mem _ hm) hsp
              · simp only [List.mem_singleton] at hsp
                subst hsp
                exact (List.nodup_cons.1 h3).1 hm
      | null => simp [searchParamsLoop, hn, namesOf, paramName_obj]
      | bool b => simp [searchParamsLoop, hn, namesOf, paramName_obj]
      | num b => simp [searchParamsLoop, hn, namesOf, paramName_obj]
      | arr b => simp [searchParamsLoop, hn, namesOf, paramName_obj]
      | obj b => simp [searchParamsLoop, hn, namesOf, paramName_obj]
    | null => simp [searchParamsLoop, namesOf, paramName]
    | bool b => simp [searchParamsLoop, namesOf, paramName]
    | num b => simp [searchParamsLoop, namesOf, paramName]
    | str b => simp [searchParamsLoop, namesOf, paramName]
    | arr b => simp [searchParamsLoop, namesOf, paramName]

theorem searchParamsLoop_error (l : List Value) (sp : List String) (e : String)
    (h : searchParamsLoop l sp = .error e) : namesOf l = none := by
  induction l generalizing sp with
  | nil => simp [searchParamsLoop] at h
  | cons elem xs ih =>
    cases elem with
    | obj o =>
      cases hn : Object.index o "name" with
      | str n =>
        by_cases hmem : stringInList n sp = true
        · simp [searchParamsLoop, hn, hmem] at h
        · simp only [searchParamsLoop, hn, hmem, Bool.false_eq_true, ↓reduceIte] at h
          simp [namesOf, ih _ h]
      | null => simp [namesOf, paramName_obj, hn]
      | bool b => simp [namesOf, paramName_obj, hn]
      | num b => simp [namesOf, paramName_obj, hn]
      | arr b => simp [namesOf, paramName_obj, hn]
      | obj b => simp [namesOf, paramName_obj, hn]
    | null => simp [namesOf, paramName]
    | bool b => simp [namesOf, paramName]
    | num b => simp [namesOf, paramName]
    | str b => simp [namesOf, paramName]
    | arr b => simp [namesOf, paramName]

theorem searchParamsLoop_ok_false (l : List Value) (sp : List String)
    (h : searchParamsLoop l sp = .ok false) :
    ∃ pre elem post n, l = pre ++ elem :: post ∧ paramName elem = some n ∧
      (n ∈ sp ∨ ∃ e ∈ pre, paramName e = some n) := by
  induction l generalizing sp with
  | nil => simp [searchParamsLoop] at h
  | cons elem xs ih =>
    cases elem with
    | obj o =>
      cases hn : Object.index o "name" with
      | str n =>
        by_cases hmem : stringInList n sp = true
        · exact ⟨[], Value.obj o, xs, n, rfl, by simp [paramName_obj, hn],
            Or.inl ((stringInList_iff n sp).1 hmem)⟩
        · simp only [searchParamsLoop, hn, hmem, Bool.false_eq_true, ↓reduceIte] at h
          obtain ⟨pre, e, post, m, rfl, hm, hor⟩ := ih _ h
          refine ⟨Value.obj o :: pre, e, post, m, rfl, hm, ?_⟩
          rcases hor with hor | ⟨e1, he1, hp⟩
          · rcases List.mem_append.1 hor with hor | hor
            · exact Or.inl hor
            · simp only [List.mem_singleton] at hor
              subst hor
              exact Or.inr ⟨Value.obj o, List.mem_cons_self _ _, by simp [paramName_obj, hn]⟩
          · exact Or.inr ⟨e1, List.mem_cons_of_mem _ he1, hp⟩
      | null => simp [searchParamsLoop, hn] at h
      | bool b => simp [searchParamsLoop, hn] at h
      | num b => simp [searchParamsLoop, hn] at h
      | arr b => simp [searchParamsLoop, hn] at h
      | obj b => simp [searchParamsLoop, hn] at h
    | null => simp [searchParamsLoop] at h
    | bool b => simp [searchParamsLoop] at h
    | num b => simp [searchParamsLoop] at h
    | str b => simp [searchParamsLoop] at h
    | arr b => simp [searchParamsLoop] at h

theorem areSearchParamsValid_ok_true (resource : Object) :
    areSearchParamsValid resource = .ok true ↔
      ∃ names, searchParamNames resource = some names ∧ names.Nodup := by
  unfold areSearchParamsValid searchParamNames
  cases Object.index resource "searchParam" with
  | arr l =>
    simp only [searchParamsLoop_ok_true]
    constructor
    · rintro ⟨names, h1, h2, -⟩; exact ⟨names, h1, h2⟩
    · rintro ⟨names, h1, h2⟩; exact ⟨names, h1, h2, by simp⟩
  | null => simp
  | bool b => simp
  | num b => simp
  | str b => simp
  | obj b => simp

theorem areSearchParamsValid_error (resource : Object) (e : String)
    (h : areSearchParamsValid resource = .error e) : searchParamNames resource = none := by
  unfold areSearchParamsValid at h
  unfold searchParamNames
  cases hs : Object.index resource "searchParam" with
  | arr l => rw [hs] at h; exact searchParamsLoop_error l [] e h
  | null => rw [hs] at h; cases h
  | bool b => rfl
  | num b => rfl
  | str b => rfl
  | obj b => rfl

theorem areSearchParamsValid_ok_false (resource : Object)
    (h : areSearchParamsValid resource = .ok false) :
    ∃ pre elem post n, Object.index resource "searchParam" = Value.arr (pre ++ elem :: post) ∧
      paramName elem = some n ∧ ∃ e ∈ pre, paramName e = some n := by
  unfold areSearchParamsValid at h
  cases hs : Object.index resource "searchParam" with
  | arr l =>
    rw [hs] at h
    obtain ⟨pre, elem, post, n, rfl, hn, hor⟩ := searchParamsLoop_ok_false l [] h
    rcases hor with hor | hor
    · simp at hor
    · exact ⟨pre, elem, post, n, rfl, hn, hor⟩
  | null => rw [hs] at h; cases h
  | bool b => rw [hs] at h; cases h
  | num b => rw [hs] at h; cases h
  | str b => rw [hs] at h; cases h
  | obj b => rw [hs] at h; cases h

theorem resourceLoop_search (l : List Object) (r : Rule) (u : List String)
    (hl : allTyped l = true) :
    resourceLoop RuleOption.SearchParamsRule l r u =
      Flow.next
        { r with
          Valid := r.Valid && l.all paramsOK,
          Actual := if l.all paramsOK = true then r.Actual else "false",
          Comment := r.Comment ++ concat (l.map searchParamsMessage) } u := by
  induction l generalizing r with
  | nil => simp [resourceLoop, concat, String.append_empty]
  | cons x xs ih =>
    obtain ⟨⟨s, hs⟩, hxs⟩ := (allTyped_cons x xs).1 hl
    cases hv : areSearchParamsValid x with
    | error e =>
      simp [resourceLoop, resourceBody, index_type_of_typeOf hs, hv, ih _ hxs, paramsOK,
        searchParamsMessage, hs, concat, Rule.failWith, String.append_assoc]
    | ok b =>
      cases b with
      | true =>
        simp [resourceLoop, resourceBody, index_type_of_typeOf hs, hv, ih _ hxs, paramsOK,
          searchParamsMessage, hs, concat, String.empty_append]
      | false =>
        simp [resourceLoop, resourceBody, index_type_of_typeOf hs, hv, ih _ hxs, paramsOK,
          searchParamsMessage, hs, concat, Rule.failWith, String.append_assoc]

theorem checkResourceList_rest (cs : CapabilityStatement) (rule : RuleOption)
    (rest : List Object) (h : cs.GetRest = .ok rest) :
    checkResourceList (some cs) rule = restLoop cs rule rest (initialRule rule) [] := by
  simp [checkResourceList, h, initialRule]

theorem allTyped_resourcesOfBlocks (cs : CapabilityStatement) (rest : List Object)
    (h : ∀ b ∈ rest, blockOK cs b = true) : allTyped (resourcesOfBlocks cs rest) = true := by
  induction rest with
  | nil => rfl
  | cons b bs ih =>
    obtain ⟨l, hl, -, ht⟩ := (blockOK_iff cs b).1 (h b (List.mem_cons_self _ _))
    simp only [resourcesOfBlocks, resourcesOf, hl, allTyped_append]
    exact ⟨ht, ih (fun b hb => h b (List.mem_cons_of_mem _ hb))⟩

theorem noStructuralFailure_iff (cs : CapabilityStatement) :
    noStructuralFailure cs = true ↔
      ∃ rest, cs.GetRest = .ok rest ∧ ∀ b ∈ rest, blockOK cs b = true := by
  unfold noStructuralFailure
  cases cs.GetRest with
  | error e => simp
  | ok rest => simp

theorem checkResourceList_flat (cs : CapabilityStatement) (rule : RuleOption)
    (h : noStructuralFailure cs = true) :
    allTyped (allResources cs) = true ∧
    checkResourceList (some cs) rule =
      match resourceLoop rule (allResources cs) (initialRule rule) [] with
      | Flow.ret x => x
      | Flow.next r1 _ => checkResourceListEnd rule r1 := by
  obtain ⟨rest, hr, hb⟩ := (noStructuralFailure_iff cs).1 h
  have hall : allResources cs = resourcesOfBlocks cs rest := by
    simp [allResources, restBlocks, hr]
  refine ⟨by rw [hall]; exact allTyped_resourcesOfBlocks cs rest hb, ?_⟩
  rw [checkResourceList_rest cs rule rest hr, hall]
  have := restLoop_blocks cs rule rest [] (initialRule rule) [] hb
  rw [List.append_nil] at this
  rw [this]
  cases resourceLoop rule (resourcesOfBlocks cs rest) (initialRule rule) [] <;> rfl

theorem resourceBody_frame (rule : RuleOption) (x : Object) (r r1 : Rule) (u u1 : List String)
    (c : String) (h : resourceBody rule x r u = Flow.next r1 u1) :
    r1.failWith c = r.failWith c := by
  unfold resourceBody at h
  split at h
  · cases h
  · split_ifs at h <;> try (cases h; rfl)
    split at h
    · cases h; rfl
    · split_ifs at h <;> cases h <;> rfl
  · cases h

theorem resourceLoop_frame (rule : RuleOption) (l : List Object) (r r1 : Rule)
    (u u1 : List String) (c : String) (h : resourceLoop rule l r u = Flow.next r1 u1) :
    r1.failWith c = r.failWith c := by
  induction l generalizing r u with
  | nil => simp only [resourceLoop] at h; cases h; rfl
  | cons x xs ih =>
    simp only [resourceLoop] at h
    cases hb : resourceBody rule x r u with
    | ret y => rw [hb] at h; cases h
    | next r2 u2 =>
      rw [hb] at h
      rw [ih r2 u2 h, resourceBody_frame rule x r r2 u u2 c hb]

theorem reachesBlock_run (cs : CapabilityStatement) (rule : RuleOption) (seen : List Object)
    (b : Object) (h : ReachesBlock cs seen b) :
    ∃ post, checkResourceList (some cs) rule =
      match resourceLoop rule seen (initialRule rule) [] with
      | Flow.ret y => y
      | Flow.next r1 u1 => restLoop cs rule (b :: post) r1 u1 := by
  obtain ⟨pre, post, hr, hpre, rfl⟩ := h
  refine ⟨post, ?_⟩
  rw [checkResourceList_rest cs rule _ hr, restLoop_blocks cs rule pre (b :: post) _ _ hpre]

theorem allTyped_of_reachesBlock (cs : CapabilityStatement) (seen : List Object) (b : Object)
    (h : ReachesBlock cs seen b) : allTyped seen = true := by
  obtain ⟨pre, post, -, hpre, rfl⟩ := h
  exact allTyped_resourcesOfBlocks cs pre hpre

theorem allTyped_of_reachesResource (cs : CapabilityStatement) (seen : List Object)
    (x : Object) (h : ReachesResource cs seen x) : allTyped seen = true := by
  obtain ⟨before, b, lpre, lpost, hb, -, hl, rfl⟩ := h
  exact (allTyped_append _ _).2 ⟨allTyped_of_reachesBlock cs before b hb, hl⟩

theorem reachesResource_run (cs : CapabilityStatement) (rule : RuleOption) (seen : List Object)
    (x : Object) (h : ReachesResource cs seen x) :
    ∃ lpost post, checkResourceList (some cs) rule =
      match resourceLoop rule seen (initialRule rule) [] with
      | Flow.ret y => y
      | Flow.next r1 u1 =>
        match resourceBody rule x r1 u1 with
        | Flow.ret y => y
        | Flow.next r2 u2 =>
          match resourceLoop rule lpost r2 u2 with
          | Flow.ret y => y
          | Flow.next r3 u3 => restLoop cs rule post r3 u3 := by
  obtain ⟨before, b, lpre, lpost, hb, hl, -, rfl⟩ := h
  obtain ⟨post, hrun⟩ := reachesBlock_run cs rule before b hb
  refine ⟨lpost, post, ?_⟩
  rw [hrun, resourceLoop_append]
  cases resourceLoop rule before (initialRule rule) [] with
  | ret y => rfl
  | next r1 u1 =>
    have hlen : (lpre ++ x :: lpost).length ≠ 0 := by simp
    simp only [restLoop, hl, hlen, if_false, resourceLoop_append]
    cases resourceLoop rule lpre r1 u1 with
    | ret y => rfl
    | next r2 u2 =>
      simp only [resourceLoop]
      cases resourceBody rule x r2 u2 with
      | ret y => rfl
      | next r3 u3 => rfl

theorem resourceLoop_next_of_not_returnsOn (k : ListRule) (l : List Object) (r : Rule)
    (hl : allTyped l = true) (hk : k.returnsOn (typesOf l) = false) :
    ∃ r1 u1, resourceLoop k.option l r [] = Flow.next r1 u1 := by
  cases k with
  | patient =>
    have : "Patient" ∉ typesOf l := by simpa [ListRule.returnsOn] using hk
    exact ⟨r, [], by simp [ListRule.option, resourceLoop_patient l r [] hl, this]⟩
  | other =>
    have : ¬ ∃ t ∈ typesOf l, t ∈ usCoreProfiles := by
      simpa [ListRule.returnsOn] using hk
    exact ⟨r, [], by simp only [ListRule.option, resourceLoop_other l r [] hl, this, if_false]⟩
  | unique =>
    have : (typesOf l).Nodup := by simpa [ListRule.returnsOn] using hk
    exact ⟨r, _, resourceLoop_unique_nodup l r [] hl (by simpa using this)⟩
  | searchParams => exact ⟨_, _, resourceLoop_search l r [] hl⟩

theorem resourceBody_untyped (rule : RuleOption) (x : Object) (r : Rule) (u : List String)
    (h : typeOf x = none) :
    resourceBody rule x r u =
      Flow.ret (r.failWith "The Resource Profiles are not properly formatted. ") := by
  unfold typeOf at h
  unfold resourceBody
  split at h
  · cases h
  · rename_i hne
    split
    · rfl
    · rename_i s hs; exact absurd hs (hne s)
    · rfl

theorem run_fields (k : ListRule) (capStat : Option CapabilityStatement) :
    (k.run capStat).Valid = (checkResourceList capStat k.option).Valid ∧
    (k.run capStat).Actual = (checkResourceList capStat k.option).Actual ∧
    (k.run capStat).Comment = (checkResourceList capStat k.option).Comment ++ k.baseline ∧
    (k.run capStat).Expected = (checkResourceList capStat k.option).Expected ∧
    (k.run capStat).ImplGuide = (checkResourceList capStat k.option).ImplGuide := by
  cases k <;> exact ⟨rfl, rfl, rfl, rfl, rfl⟩

theorem checkResourceList_firstFailure (k : ListRule) (capStat : Option CapabilityStatement)
    (seen : List Object) (cause : Cause) (h : FirstFailure capStat seen cause)
    (hk : k.returnsOn (typesOf seen) = false) :
    checkResourceList capStat k.option = (initialRule k.option).failWith cause.text := by
  cases h with
  | noDocument => rfl
  | noRest cs e he => simp [checkResourceList, he, initialRule, Cause.text]
  | unreadable cs seen b e hb he =>
    obtain ⟨post, hrun⟩ := reachesBlock_run cs k.option seen b hb
    obtain ⟨r1, u1, hloop⟩ := resourceLoop_next_of_not_returnsOn k seen (initialRule k.option)
      (allTyped_of_reachesBlock cs seen b hb) hk
    rw [hrun, hloop]
    simp only [restLoop, he, Cause.text]
    exact resourceLoop_frame _ _ _ _ _ _ _ hloop
  | empty cs seen b hb he =>
    obtain ⟨post, hrun⟩ := reachesBlock_run cs k.option seen b hb
    obtain ⟨r1, u1, hloop⟩ := resourceLoop_next_of_not_returnsOn k seen (initialRule k.option)
      (allTyped_of_reachesBlock cs seen b hb) hk
    rw [hrun, hloop]
    simp only [restLoop, he, Cause.text, List.length_nil, if_true]
    exact resourceLoop_frame _ _ _ _ _ _ _ hloop
  | badType cs seen x hx ht =>
    obtain ⟨lpost, post, hrun⟩ := reachesResource_run cs k.option seen x hx
    obtain ⟨r1, u1, hloop⟩ := resourceLoop_next_of_not_returnsOn k seen (initialRule k.option)
      (allTyped_of_reachesResource cs seen x hx) hk
    rw [hrun, hloop]
    simp only [resourceBody_untyped _ _ _ _ ht, Cause.text]
    exact resourceLoop_frame _ _ _ _ _ _ _ hloop

theorem Cause.text_injective : Function.Injective Cause.text := by
  intro a b h
  cases a <;> cases b <;> first | rfl | exact absurd h (by decide)

/-! ## The claims -/

/-- C1 (the code does not meet it). On an absent capability statement the engine does not
return a report: `KindValid` calls `GetImplementation` on the absent document and panics
(after `baseRule[0]`, which panics itself when the base check returns no rule), and
`EndpointFunctionValid`, `DescribeEndpointValid` and `DocumentSetValid` call an accessor on
the absent document as well. -/
theorem RunValidation_absent_document_panics (v : baseVal) (httpResponse : Int)
    (mimeTypes : List String) (fhirVersion tlsVersion : String) (smartHTTPRsp : Int) :
    (∃ p, KindValid v none = .error p) ∧
    EndpointFunctionValid none = .error Panic.nilDereference ∧
    DescribeEndpointValid none = .error Panic.nilDereference ∧
    DocumentSetValid none = .error Panic.nilDereference ∧
    ∃ p, RunValidation v none httpResponse mimeTypes fhirVersion tlsVersion smartHTTPRsp
      = .error p := by
  have hk : ∃ p, KindValid v none = .error p := by
    unfold KindValid
    split
    · exact ⟨_, rfl⟩
    · exact ⟨_, rfl⟩
  refine ⟨hk, rfl, rfl, rfl, ?_⟩
  obtain ⟨p, hp⟩ := hk
  exact ⟨p, by simp only [RunValidation, hp, bind, Except.bind]⟩

theorem KindValid_ok_length (v : baseVal) (capStat : Option CapabilityStatement)
    (rules : List Rule) (h : KindValid v capStat = .ok rules) : ∃ r0 r1, rules = [r0, r1] := by
  unfold KindValid at h
  split at h
  · cases h
  · split at h
    · cases h
    · split at h
      · cases h; exact ⟨_, _, rfl⟩
      · split at h <;> cases h <;> exact ⟨_, _, rfl⟩

/-- C2. Whenever the engine returns a report, the report has no warnings and exactly 16
results, and the results are, in this order, the outputs on the same inputs of
CapStatExists, MimeTypeValid, HTTPResponseValid, the base FhirVersion, TLSVersion,
PatientResourceExists, OtherResourceExists, SmartHTTPResponseValid, the two rules of
KindValid, MessagingEndpointValid, EndpointFunctionValid, DescribeEndpointValid,
DocumentSetValid, UniqueResources and SearchParamsUnique, whatever their outcomes. -/
theorem RunValidation_results (v : baseVal) (capStat : Option CapabilityStatement)
    (httpResponse : Int) (mimeTypes : List String) (fhirVersion tlsVersion : String)
    (smartHTTPRsp : Int) (report : Validation)
    (h : RunValidation v capStat httpResponse mimeTypes fhirVersion tlsVersion smartHTTPRsp
      = .ok report) :
    report.Warnings = [] ∧ report.Results.length = 16 ∧
    ∃ kind0 kind1 messaging function describe document,
      KindValid v capStat = .ok [kind0, kind1] ∧
      MessagingEndpointValid v capStat = .ok messaging ∧
      EndpointFunctionValid capStat = .ok function ∧
      DescribeEndpointValid capStat = .ok describe ∧
      DocumentSetValid capStat = .ok document ∧
      report.Results =
        [CapStatExists v capStat, MimeTypeValid v mimeTypes fhirVersion,
         HTTPResponseValid v httpResponse, v.FhirVersion fhirVersion, TLSVersion tlsVersion,
         PatientResourceExists capStat, OtherResourceExists capStat,
         SmartHTTPResponseValid v smartHTTPRsp, kind0, kind1, messaging, function, describe,
         document, UniqueResources capStat, SearchParamsUnique capStat] := by
  unfold RunValidation at h
  cases hk : KindValid v capStat with
  | error p => simp [hk, bind, Except.bind] at h
  | ok rules =>
    obtain ⟨k0, k1, rfl⟩ := KindValid_ok_length v capStat _ hk
    cases hm : MessagingEndpointValid v capStat with
    | error p => simp [hk, hm, bind, Except.bind, pure, Except.pure] at h
    | ok m =>
      cases hf : EndpointFunctionValid capStat with
      | error p => simp [hk, hm, hf, bind, Except.bind, pure, Except.pure] at h
      | ok f =>
        cases hd : DescribeEndpointValid capStat with
        | error p => simp [hk, hm, hf, hd, bind, Except.bind, pure, Except.pure] at h
        | ok d =>
          cases hs : DocumentSetValid capStat with
          | error p => simp [hk, hm, hf, hd, hs, bind, Except.bind, pure, Except.pure] at h
          | ok s =>
            simp only [hk, hm, hf, hd, hs, bind, Except.bind, pure, Except.pure,
              List.nil_append, List.cons_append, List.singleton_append] at h
            cases h
            exact ⟨rfl, rfl, k0, k1, m, f, d, s, rfl, rfl, rfl, rfl, rfl, rfl⟩

/-- Witness of C2: the engine returns on a present document, and its report has the 16
results in the fixed order. -/
theorem RunValidation_results_witness :
    RunValidation exampleBase (some patientOnly) 404 [] "4.0.1" "TLS 1.1" 0
      = .ok (reportOf (RunValidation exampleBase (some patientOnly) 404 [] "4.0.1" "TLS 1.1" 0)) ∧
    (reportOf (RunValidation exampleBase (some patientOnly) 404 [] "4.0.1" "TLS 1.1" 0)).Results.length
      = 16 :=
  ⟨rfl, (RunValidation_results exampleBase (some patientOnly) 404 [] "4.0.1" "TLS 1.1" 0 _ rfl).2.1⟩

/-- C3, counterexample. In `untypedAfterPatient` the first structural problem in iteration
order is a resource without a type, after a Patient resource; PatientResourceExists has
returned on the Patient resource and is valid. -/
theorem PatientResourceExists_valid_before_failure :
    FirstFailure (some untypedAfterPatient) [resourceOfType "Patient"] Cause.badType ∧
    (PatientResourceExists (some untypedAfterPatient)).Valid = true := by
  refine ⟨?_, by decide⟩
  refine FirstFailure.badType _ _ [] ?_ rfl
  exact ⟨[], restBlock [resourceOfType "Patient", []], [resourceOfType "Patient"], [],
    ⟨[], [], rfl, by simp, rfl⟩, rfl, rfl, rfl⟩

/-- C3, as amended. For each of the four resource-list rules: when the first structural
problem in iteration order is `cause` (document absent, `rest` accessor failing, a resource
list unreadable or empty, a resource type missing or not a string) and the rule has not
returned on a resource before it, the rule is invalid with Actual "false" and its comment
is the text of the cause followed by the baseline sentence of the rule, whatever comes after
the failure; the four texts are pairwise distinct. -/
theorem resource_list_rule_first_failure (k : ListRule) (capStat : Option CapabilityStatement)
    (seen : List Object) (cause : Cause) (h : FirstFailure capStat seen cause)
    (hk : k.returnsOn (typesOf seen) = false) :
    (k.run capStat).Valid = false ∧ (k.run capStat).Actual = "false" ∧
    (k.run capStat).Comment = cause.text ++ k.baseline ∧
    Function.Injective Cause.text := by
  obtain ⟨h1, h2, h3, -, -⟩ := run_fields k capStat
  rw [h1, h2, h3, checkResourceList_firstFailure k capStat seen cause h hk]
  exact ⟨rfl, rfl, rfl, Cause.text_injective⟩

/-- Witness of C3: a document whose `rest` accessor fails makes UniqueResources invalid with
the comment that the rest field does not exist. -/
theorem resource_list_rule_first_failure_witness :
    (UniqueResources (some { patientOnly with GetRest := .error "rest missing" })).Comment =
      "Rest field does not exist. " ++
        "A given resource can only be described once per RESTful mode." :=
  (resource_list_rule_first_failure ListRule.unique
    (some { patientOnly with GetRest := .error "rest missing" }) [] Cause.noRest
    (FirstFailure.noRest _ "rest missing" rfl) rfl).2.2.1

theorem resourceBody_patient_hit (x : Object) (r : Rule) (u : List String)
    (h : typeOf x = some "Patient") :
    resourceBody RuleOption.PatResourceExists x r u = Flow.ret r := by
  simp [resourceBody, index_type_of_typeOf h]

/-- C4, counterexample. In `patientAfterEmptyBlock` a resource of the second REST block has
type "Patient", yet PatientResourceExists is invalid: the empty resource list of the first
block stops the rule. -/
theorem PatientResourceExists_invalid_despite_patient :
    (∃ restElem ∈ restBlocks patientAfterEmptyBlock,
      ∃ resource ∈ resourcesOf patientAfterEmptyBlock restElem,
        typeOf resource = some "Patient") ∧
    (PatientResourceExists (some patientAfterEmptyBlock)).Valid = false := by
  refine ⟨⟨restBlock [resourceOfType "Patient"], ?_, resourceOfType "Patient", ?_, rfl⟩,
    by decide⟩
  · exact List.Mem.tail _ (List.Mem.head _)
  · exact List.Mem.head _

/-- C4, as amended. Whenever a resource of type "Patient" is reached in iteration order
with no structural failure before it, PatientResourceExists is valid. -/
theorem PatientResourceExists_valid_of_reached (cs : CapabilityStatement) (seen : List Object)
    (resource : Object) (h : ReachesResource cs seen resource)
    (hp : typeOf resource = some "Patient") :
    (PatientResourceExists (some cs)).Valid = true := by
  obtain ⟨lpost, post, hrun⟩ := reachesResource_run cs RuleOption.PatResourceExists seen
    resource h
  have hseen := allTyped_of_reachesResource cs seen resource h
  have hv : (checkResourceList (some cs) RuleOption.PatResourceExists).Valid = true := by
    rw [hrun, resourceLoop_patient seen _ _ hseen]
    split_ifs
    · rfl
    · simp only [resourceBody_patient_hit _ _ _ hp]
      rfl
  exact hv

/-- Witness of C4: the Patient resource of `patientOnly` is reached first. -/
theorem PatientResourceExists_valid_of_reached_witness :
    (PatientResourceExists (some patientOnly)).Valid = true :=
  PatientResourceExists_valid_of_reached patientOnly [] (resourceOfType "Patient")
    ⟨[], restBlock [resourceOfType "Patient"], [], [], ⟨[], [], rfl, by simp, rfl⟩, rfl, rfl, rfl⟩
    rfl

theorem patient_not_usCore : "Patient" ∉ usCoreProfiles := by decide

/-- C5. On a document without structural failure, OtherResourceExists is valid if and only
if some resource type of some REST block is in the list `usCoreProfiles`; "Patient" is not
in that list, so a document whose resource types are all "Patient" (and that has a
resource) fails OtherResourceExists and passes PatientResourceExists. -/
theorem OtherResourceExists_valid_iff (cs : CapabilityStatement)
    (h : noStructuralFailure cs = true) :
    ((OtherResourceExists (some cs)).Valid = true ↔
      ∃ typeStr ∈ resourceTypes cs, typeStr ∈ usCoreProfiles) ∧
    "Patient" ∉ usCoreProfiles ∧
    (resourceTypes cs ≠ [] → (∀ typeStr ∈ resourceTypes cs, typeStr = "Patient") →
      (OtherResourceExists (some cs)).Valid = false ∧
      (PatientResourceExists (some cs)).Valid = true) := by
  obtain ⟨htyped, hother⟩ := checkResourceList_flat cs RuleOption.OtherResourceExists h
  obtain ⟨-, hpat⟩ := checkResourceList_flat cs RuleOption.PatResourceExists h
  have hiff : (OtherResourceExists (some cs)).Valid = true ↔
      ∃ typeStr ∈ resourceTypes cs, typeStr ∈ usCoreProfiles := by
    show (checkResourceList (some cs) RuleOption.OtherResourceExists).Valid = true ↔ _
    rw [hother, resourceLoop_other _ _ _ htyped]
    unfold resourceTypes
    split_ifs with hex
    · simp only [initialRule, true_iff]; exact hex
    · simp only [checkResourceListEnd, initialRule]
      simp [hex]
  refine ⟨hiff, patient_not_usCore, ?_⟩
  intro hne hall
  constructor
  · rw [← Bool.not_eq_true, hiff]
    rintro ⟨t, ht, hmem⟩
    rw [hall t ht] at hmem
    exact patient_not_usCore hmem
  · show (checkResourceList (some cs) RuleOption.PatResourceExists).Valid = true
    rw [hpat, resourceLoop_patient _ _ _ htyped]
    have hmem : "Patient" ∈ typesOf (allResources cs) := by
      have : ∃ t, t ∈ resourceTypes cs := List.exists_mem_of_ne_nil _ hne
      obtain ⟨t, ht⟩ := this
      have := hall t ht
      subst this
      exact ht
    simp [hmem, initialRule]

/-- Witness of C5: `patientOnly` has no structural failure and no US Core resource type. -/
theorem OtherResourceExists_valid_iff_witness :
    noStructuralFailure patientOnly = true ∧
    (OtherResourceExists (some patientOnly)).Valid = false ∧
    (PatientResourceExists (some patientOnly)).Valid = true :=
  ⟨by decide,
    (OtherResourceExists_valid_iff patientOnly (by decide)).2.2 (by decide) (by decide)⟩

/-- C6. On a document without structural failure, UniqueResources is invalid if and only
if the sequence of resource types over all REST blocks has a repeated value; when it is
invalid the comment names the type at the earliest position that repeats an earlier type,
followed by the baseline sentence. For the types Patient, Observation, Patient the rule is
invalid and "Patient" occurs exactly once in the comment. -/
theorem UniqueResources_first_repeat (cs : CapabilityStatement)
    (h : noStructuralFailure cs = true) :
    ((UniqueResources (some cs)).Valid = false ↔ ¬ (resourceTypes cs).Nodup) ∧
    (∀ pre typeStr post, resourceTypes cs = pre ++ typeStr :: post → pre.Nodup →
      typeStr ∈ pre →
      (UniqueResources (some cs)).Valid = false ∧
      (UniqueResources (some cs)).Comment =
        "The resource type " ++ typeStr ++ " is not unique. " ++
          "A given resource can only be described once per RESTful mode.") ∧
    ((UniqueResources (some cs)).Valid = false →
      ∃ pre typeStr post, resourceTypes cs = pre ++ typeStr :: post ∧ pre.Nodup ∧
        typeStr ∈ pre) ∧
    (resourceTypes cs = ["Patient", "Observation", "Patient"] →
      (UniqueResources (some cs)).Valid = false ∧
      occurrences "Patient".toList (UniqueResources (some cs)).Comment.toList = 1) := by
  obtain ⟨htyped, hrun⟩ := checkResourceList_flat cs RuleOption.UniqueResourcesRule h
  have hdup : ∀ pre typeStr post, resourceTypes cs = pre ++ typeStr :: post → pre.Nodup →
      typeStr ∈ pre →
      (UniqueResources (some cs)).Valid = false ∧
      (UniqueResources (some cs)).Comment =
        "The resource type " ++ typeStr ++ " is not unique. " ++
          "A given resource can only be described once per RESTful mode." := by
    intro pre t post ht hn hm
    have hloop := resourceLoop_unique_dup (allResources cs)
      (initialRule RuleOption.UniqueResourcesRule) [] pre post t htyped ht
      (by simpa using hn) (by simpa using hm)
    have hc : checkResourceList (some cs) RuleOption.UniqueResourcesRule =
        (initialRule RuleOption.UniqueResourcesRule).failWith
          ("The resource type " ++ t ++ " is not unique. ") := by
      rw [hrun, hloop]
    constructor
    · show (checkResourceList (some cs) RuleOption.UniqueResourcesRule).Valid = false
      rw [hc]; rfl
    · show (checkResourceList (some cs) RuleOption.UniqueResourcesRule).Comment ++ _ = _
      rw [hc]; rfl
  have hnodup : (resourceTypes cs).Nodup → (UniqueResources (some cs)).Valid = true := by
    intro hn
    have hloop := resourceLoop_unique_nodup (allResources cs)
      (initialRule RuleOption.UniqueResourcesRule) [] htyped (by simpa using hn)
    show (checkResourceList (some cs) RuleOption.UniqueResourcesRule).Valid = true
    rw [hrun, hloop]
    rfl
  have hex : ¬ (resourceTypes cs).Nodup →
      ∃ pre typeStr post, resourceTypes cs = pre ++ typeStr :: post ∧ pre.Nodup ∧
        typeStr ∈ pre := by
    intro hn
    obtain ⟨pre, t, post, h1, h2, h3⟩ :=
      exists_first_repeat (resourceTypes cs) [] List.nodup_nil (by simpa using hn)
    exact ⟨pre, t, post, h1, by simpa using h2, by simpa using h3⟩
  have hiff : (UniqueResources (some cs)).Valid = false ↔ ¬ (resourceTypes cs).Nodup := by
    constructor
    · intro hv hn
      rw [hnodup hn] at hv
      cases hv
    · intro hn
      obtain ⟨pre, t, post, h1, h2, h3⟩ := hex hn
      exact (hdup pre t post h1 h2 h3).1
  refine ⟨hiff, hdup, fun hv => hex (hiff.1 hv), ?_⟩
  intro ht
  obtain ⟨hv, hc⟩ := hdup ["Patient", "Observation"] "Patient" [] ht (by decide) (by decide)
  refine ⟨hv, ?_⟩
  rw [hc]
  decide

/-- Witness of C6: `patientTwiceInBlock` has no structural failure and its resource types
are Patient, Observation, Patient. -/
theorem UniqueResources_first_repeat_witness :
    noStructuralFailure patientTwiceInBlock = true ∧
    (UniqueResources (some patientTwiceInBlock)).Valid = false ∧
    occurrences "Patient".toList (UniqueResources (some patientTwiceInBlock)).Comment.toList
      = 1 :=
  ⟨by decide, (UniqueResources_first_repeat patientTwiceInBlock (by decide)).2.2.2 (by decide)⟩

/-- C7 (the code does not meet it). In `patientInTwoBlocks` there is no structural failure
and the resource types are pairwise distinct within each REST block, yet UniqueResources is
invalid and reports Patient as not unique: the types seen are accumulated across the
blocks. -/
theorem UniqueResources_not_per_block :
    noStructuralFailure patientInTwoBlocks = true ∧
    (∀ restElem ∈ restBlocks patientInTwoBlocks,
      (typesOf (resourcesOf patientInTwoBlocks restElem)).Nodup) ∧
    (UniqueResources (some patientInTwoBlocks)).Valid = false ∧
    (UniqueResources (some patientInTwoBlocks)).Comment =
      "The resource type Patient is not unique. A given resource can only be described once per RESTful mode." := by
  refine ⟨by decide, by decide, by decide, by decide⟩

theorem paramsOK_iff (resource : Object) :
    paramsOK resource = true ↔
      ∃ names, searchParamNames resource = some names ∧ names.Nodup := by
  rw [← areSearchParamsValid_ok_true]
  unfold paramsOK
  cases areSearchParamsValid resource with
  | error e => simp
  | ok b => cases b <;> simp

theorem searchParamsMessage_cases (resource : Object) (typeStr : String)
    (ht : typeOf resource = some typeStr) :
    ((∃ names, searchParamNames resource = some names ∧ names.Nodup) ∧
      searchParamsMessage resource = "") ∨
    (searchParamNames resource = none ∧
      searchParamsMessage resource =
        "The resource type " ++ typeStr ++ " is not formatted properly. ") ∨
    ((∃ pre elem post nameStr,
        Object.index resource "searchParam" = Value.arr (pre ++ elem :: post) ∧
        paramName elem = some nameStr ∧ ∃ earlier ∈ pre, paramName earlier = some nameStr) ∧
      searchParamsMessage resource =
        "The resource type " ++ typeStr ++ " does not have unique searchParams. ") := by
  cases hv : areSearchParamsValid resource with
  | error e =>
    exact Or.inr (Or.inl ⟨areSearchParamsValid_error resource e hv,
      by simp [searchParamsMessage, ht, hv]⟩)
  | ok b =>
    cases b with
    | true =>
      exact Or.inl ⟨(areSearchParamsValid_ok_true resource).1 hv,
        by simp [searchParamsMessage, ht, hv]⟩
    | false =>
      exact Or.inr (Or.inr ⟨areSearchParamsValid_ok_false resource hv,
        by simp [searchParamsMessage, ht, hv]⟩)

theorem typeOf_of_allTyped (l : List Object) (hl : allTyped l = true) (resource : Object)
    (hr : resource ∈ l) : ∃ typeStr, typeOf resource = some typeStr := by
  have := List.all_eq_true.1 hl resource hr
  exact Option.isSome_iff_exists.1 this

/-- C8. On a document without structural failure, SearchParamsUnique examines every
resource of every REST block: it is valid if and only if every resource declares search
parameters (none at all when `searchParam` is absent) whose names are all strings and
pairwise distinct; its comment is the concatenation, in iteration order, of the messages of
the resources followed by the baseline sentence, where the message of a resource is empty
when the resource passes, is "The resource type T is not formatted properly. " only when
its `searchParam` is malformed, and is "The resource type T does not have unique
searchParams. " only when a name is declared twice. -/
theorem SearchParamsUnique_all_resources (cs : CapabilityStatement)
    (h : noStructuralFailure cs = true) :
    ((SearchParamsUnique (some cs)).Valid = true ↔
      ∀ resource ∈ allResources cs,
        ∃ names, searchParamNames resource = some names ∧ names.Nodup) ∧
    (SearchParamsUnique (some cs)).Comment =
      concat ((allResources cs).map searchParamsMessage) ++
        "Search parameter names must be unique in the context of a resource." ∧
    ∀ resource ∈ allResources cs, ∃ typeStr, typeOf resource = some typeStr ∧
      (((∃ names, searchParamNames resource = some names ∧ names.Nodup) ∧
          searchParamsMessage resource = "") ∨
        (searchParamNames resource = none ∧
          searchParamsMessage resource =
            "The resource type " ++ typeStr ++ " is not formatted properly. ") ∨
        ((∃ pre elem post nameStr,
            Object.index resource "searchParam" = Value.arr (pre ++ elem :: post) ∧
            paramName elem = some nameStr ∧
            ∃ earlier ∈ pre, paramName earlier = some nameStr) ∧
          searchParamsMessage resource =
            "The resource type " ++ typeStr ++ " does not have unique searchParams. ")) := by
  obtain ⟨htyped, hrun⟩ := checkResourceList_flat cs RuleOption.SearchParamsRule h
  rw [resourceLoop_search _ _ _ htyped] at hrun
  refine ⟨?_, ?_, ?_⟩
  · show (checkResourceList (some cs) RuleOption.SearchParamsRule).Valid = true ↔ _
    rw [hrun]
    simp only [checkResourceListEnd, initialRule, or_true, if_true, Bool.true_and,
      List.all_eq_true, paramsOK_iff]
  · show (checkResourceList (some cs) RuleOption.SearchParamsRule).Comment ++ _ = _
    rw [hrun]
    simp only [checkResourceListEnd, initialRule, or_true, if_true, String.empty_append]
  · intro resource hr
    obtain ⟨typeStr, ht⟩ := typeOf_of_allTyped _ htyped resource hr
    exact ⟨typeStr, ht, searchParamsMessage_cases resource typeStr ht⟩

/-- Witness of C8: `badSearchParams` has no structural failure; the rule is invalid and
reports the Patient resource and the Observation resource, in this order. -/
theorem SearchParamsUnique_all_resources_witness :
    noStructuralFailure badSearchParams = true ∧
    (SearchParamsUnique (some badSearchParams)).Comment =
      "The resource type Patient does not have unique searchParams. The resource type Observation is not formatted properly. Search parameter names must be unique in the context of a resource." :=
  ⟨by decide,
    ((SearchParamsUnique_all_resources badSearchParams (by decide)).2.1).trans rfl⟩

/-! ## Lemmas on the loop of `DocumentSetValid` -/

theorem documentLoop_cons_none (r : Rule) (bc : String) (d : Object) (l : List Object)
    (u : List String) (h : docKey d = none) :
    documentLoop r bc (d :: l) u = DocFlow.exit true := by
  unfold docKey at h
  unfold documentLoop
  cases hm : Object.index d "mode" <;> cases hp : Object.index d "profile" <;>
    simp_all

theorem documentLoop_cons_some (r : Rule) (bc : String) (d : Object) (l : List Object)
    (u : List String) (key : String) (h : docKey d = some key) :
    documentLoop r bc (d :: l) u =
      if stringInList key u then
        DocFlow.ret (r.failWith ("The set of documents are not unique. " ++ bc))
      else documentLoop r bc l (u ++ [key]) := by
  unfold docKey at h
  rw [documentLoop]
  cases hm : Object.index d "mode" <;> cases hp : Object.index d "profile" <;>
    simp_all

theorem allKeyed_cons (d : Object) (l : List Object) :
    allKeyed (d :: l) = true ↔ (∃ key, docKey d = some key) ∧ allKeyed l = true := by
  simp [allKeyed, Option.isSome_iff_exists]

theorem docKeys_cons_of_docKey {d : Object} {key : String} (h : docKey d = some key)
    (l : List Object) : docKeys (d :: l) = key :: docKeys l := by
  simp [docKeys, h]

theorem documentLoop_keyed (r : Rule) (bc : String) (pre rest : List Object)
    (u : List String) (hk : allKeyed pre = true) (hn : (u ++ docKeys pre).Nodup) :
    documentLoop r bc (pre ++ rest) u = documentLoop r bc rest (u ++ docKeys pre) := by
  induction pre generalizing u with
  | nil => simp [docKeys]
  | cons d l ih =>
    obtain ⟨⟨key, hkey⟩, hl⟩ := (allKeyed_cons d l).1 hk
    rw [docKeys_cons_of_docKey hkey] at hn ⊢
    have hnot : key ∉ u := fun hm =>
      (List.nodup_append.1 hn).2.2 hm (List.mem_cons_self _ _)
    have h1 : stringInList key u = false := by
      rw [← Bool.not_eq_true, stringInList_iff]; exact hnot
    have hn2 : (u ++ [key] ++ docKeys l).Nodup := by simpa using hn
    rw [List.cons_append, documentLoop_cons_some r bc d _ u key hkey]
    simp only [h1, Bool.false_eq_true, if_false]
    rw [ih (u ++ [key]) hl hn2]
    simp

theorem DocumentSetValid_some (cs : CapabilityStatement) (document : List Object)
    (h : cs.GetDocument = .ok document) (hne : document ≠ []) :
    DocumentSetValid (some cs) =
      match documentLoop documentRule documentRule.Comment document [] with
      | DocFlow.ret r => .ok r
      | DocFlow.exit invalid =>
        if invalid then
          .ok (documentRule.failWith
            ("Document field is not formatted correctly. Cannot check if the set of documents are unique. "
              ++ documentRule.Comment))
        else .ok documentRule := by
  have hlen : document.length ≠ 0 := by
    cases document with
    | nil => exact absurd rfl hne
    | cons _ _ => simp
  simp only [DocumentSetValid, deref, h, hlen, if_false]
  rfl

/-- C9. For a present document whose document accessor succeeds: on an empty list the rule
is valid with the comment "Document field does not exist."; an entry that is malformed
(mode or profile missing or not a string), met after entries that all have a key and whose
keys are pairwise distinct, makes the rule invalid with the comment "Document field is not
formatted correctly. ..."; an entry whose key `profile.mode` equals the key of an earlier
entry, met after such entries, makes it invalid with the comment "The set of documents are
not unique. ..."; and the rule is valid with its baseline comment when every entry has a key
and the keys are pairwise distinct. The entries (producer, A), (producer, A) fail and the
entries (producer, A), (consumer, A) pass. -/
theorem DocumentSetValid_first_problem (cs : CapabilityStatement) (document : List Object)
    (h : cs.GetDocument = .ok document) :
    (document = [] →
      DocumentSetValid (some cs) =
        .ok { documentRule with Comment := "Document field does not exist." }) ∧
    (∀ pre entry post, document = pre ++ entry :: post → allKeyed pre = true →
      (docKeys pre).Nodup → docKey entry = none →
      DocumentSetValid (some cs) =
        .ok (documentRule.failWith
          ("Document field is not formatted correctly. Cannot check if the set of documents are unique. "
            ++ "The set of documents must be unique by the combination of profile and mode."))) ∧
    (∀ pre entry post key, document = pre ++ entry :: post → allKeyed pre = true →
      (docKeys pre).Nodup → docKey entry = some key → key ∈ docKeys pre →
      DocumentSetValid (some cs) =
        .ok (documentRule.failWith
          ("The set of documents are not unique. "
            ++ "The set of documents must be unique by the combination of profile and mode."))) ∧
    (document ≠ [] → allKeyed document = true → (docKeys document).Nodup →
      DocumentSetValid (some cs) = .ok documentRule) ∧
    (document = [docEntry "producer" "A", docEntry "producer" "A"] →
      ∃ r, DocumentSetValid (some cs) = .ok r ∧ r.Valid = false) ∧
    (document = [docEntry "producer" "A", docEntry "consumer" "A"] →
      ∃ r, DocumentSetValid (some cs) = .ok r ∧ r.Valid = true) := by
  have hmal : ∀ pre entry post, document = pre ++ entry :: post → allKeyed pre = true →
      (docKeys pre).Nodup → docKey entry = none →
      DocumentSetValid (some cs) =
        .ok (documentRule.failWith
          ("Document field is not formatted correctly. Cannot check if the set of documents are unique. "
            ++ "The set of documents must be unique by the combination of profile and mode.")) := by
    intro pre entry post hd hk hn he
    have hne : document ≠ [] := by rw [hd]; simp
    rw [DocumentSetValid_some cs document h hne, hd,
      documentLoop_keyed _ _ pre _ [] hk (by simpa using hn),
      documentLoop_cons_none _ _ _ _ _ he]
    rfl
  have hdup : ∀ pre entry post key, document = pre ++ entry :: post → allKeyed pre = true →
      (docKeys pre).Nodup → docKey entry = some key → key ∈ docKeys pre →
      DocumentSetValid (some cs) =
        .ok (documentRule.failWith
          ("The set of documents are not unique. "
            ++ "The set of documents must be unique by the combination of profile and mode.")) := by
    intro pre entry post key hd hk hn he hmem
    have hne : document ≠ [] := by rw [hd]; simp
    have hin : stringInList key ([] ++ docKeys pre) = true :=
      (stringInList_iff _ _).2 (by simpa using hmem)
    rw [DocumentSetValid_some cs document h hne, hd,
      documentLoop_keyed _ _ pre _ [] hk (by simpa using hn),
      documentLoop_cons_some _ _ _ _ _ key he]
    simp only [hin, if_true]
    rfl
  have hok : document ≠ [] → allKeyed document = true → (docKeys document).Nodup →
      DocumentSetValid (some cs) = .ok documentRule := by
    intro hne hk hn
    have := documentLoop_keyed documentRule documentRule.Comment document [] [] hk
      (by simpa using hn)
    rw [List.append_nil] at this
    rw [DocumentSetValid_some cs document h hne, this]
    rfl
  refine ⟨?_, hmal, hdup, hok, ?_, ?_⟩
  · intro hd
    subst hd
    simp only [DocumentSetValid, deref, h, List.length_nil, if_true]
    rfl
  · intro hd
    exact ⟨_, hdup [docEntry "producer" "A"] (docEntry "producer" "A") [] "A.producer" hd
      (by decide) (by decide) (by decide) (by decide), rfl⟩
  · intro hd
    refine ⟨_, hok (by rw [hd]; simp) (by rw [hd]; decide) (by rw [hd]; decide), rfl⟩

/-- Witness of C9: the document accessor of `producerAndConsumer` returns the entries
(producer, A) and (consumer, A), and the rule passes. -/
theorem DocumentSetValid_first_problem_witness :
    producerAndConsumer.GetDocument
      = .ok [docEntry "producer" "A", docEntry "consumer" "A"] ∧
    ∃ r, DocumentSetValid (some producerAndConsumer) = .ok r ∧ r.Valid = true :=
  ⟨rfl, (DocumentSetValid_first_problem producerAndConsumer _ rfl).2.2.2.2.2 rfl⟩

/-- C10 (the code does not meet it). The two document entries of `collidingDocuments` both
have a string mode and a string profile and differ in their (profile, mode) pairs, (a.b, c)
and (a, b.c); the rule reports them as duplicates and is invalid, because both keys
`profile.mode` are "a.b.c". -/
theorem DocumentSetValid_key_collision :
    collidingDocuments.GetDocument = .ok [docEntry "c" "a.b", docEntry "b.c" "a"] ∧
    allKeyed [docEntry "c" "a.b", docEntry "b.c" "a"] = true ∧
    docPairs [docEntry "c" "a.b", docEntry "b.c" "a"] = [("a.b", "c"), ("a", "b.c")] ∧
    (docPairs [docEntry "c" "a.b", docEntry "b.c" "a"]).Nodup ∧
    DocumentSetValid (some collidingDocuments) =
      .ok (documentRule.failWith
        ("The set of documents are not unique. "
          ++ "The set of documents must be unique by the combination of profile and mode.")) := by
  refine ⟨rfl, by decide, by decide, by decide, rfl⟩

/-! ## The presence, messaging, TLS and response rules -/

theorem string_length_pos_iff (value : String) : value.length > 0 ↔ value ≠ "" := by
  constructor
  · intro h e
    subst e
    simp at h
  · intro h
    by_contra hlen
    apply h
    have h0 : value.length = 0 := by omega
    have hd : value.data = [] := List.length_eq_zero.1 h0
    exact String.ext hd

theorem EndpointFunctionValid_some (cs : CapabilityStatement) :
    EndpointFunctionValid (some cs) =
      .ok (finishPresence
        { RuleName := RuleOption.EndptFunctionRule,
          Valid := true,
          Expected := "rest OR messaging OR document",
          Actual := "",
          Comment := "A Capability Statement SHALL have at least one of REST, messaging or document element.",
          Reference := "http://hl7.org/fhir/capabilitystatement.html",
          ImplGuide := "USCore 3.1" }
        (presentNames (functionCandidates cs))) := by
  unfold EndpointFunctionValid functionCandidates
  rcases h1 : cs.GetRest with e1 | (_ | ⟨a1, l1⟩) <;>
    rcases h2 : cs.GetMessaging with e2 | (_ | ⟨a2, l2⟩) <;>
    rcases h3 : cs.GetDocument with e3 | (_ | ⟨a3, l3⟩) <;>
    simp [deref, nonEmptyList, presentNames, h1, h2, h3]

theorem DescribeEndpointValid_some (cs : CapabilityStatement) :
    DescribeEndpointValid (some cs) =
      .ok (finishPresence
        { RuleName := RuleOption.DescribeEndptRule,
          Valid := true,
          Expected := "description OR software OR implementation",
          Actual := "",
          Comment := "A Capability Statement SHALL have at least one of description, software, or implementation element.",
          Reference := "http://hl7.org/fhir/capabilitystatement.html",
          ImplGuide := "USCore 3.1" }
        (presentNames (describeCandidates cs))) := by
  unfold DescribeEndpointValid describeCandidates
  have hstr : ∀ value : String, ¬ value = "" → 0 < value.length := fun value h =>
    (string_length_pos_iff value).2 h
  rcases h1 : cs.GetDescription with e1 | d <;>
    rcases h2 : cs.GetSoftware with e2 | (_ | ⟨a2, l2⟩) <;>
    rcases h3 : cs.GetImplementation with e3 | (_ | ⟨a3, l3⟩) <;>
    (try by_cases hd : d = "") <;>
    (try subst hd) <;>
    simp [deref, nonEmptyList, nonEmptyString, presentNames, h1, h2, h3, hstr, *]

/-- C11. For every present capability document, EndpointFunctionValid (candidates rest,
messaging, document) and DescribeEndpointValid (candidates description, software,
implementation) return a rule that is valid if and only if at least one candidate accessor
succeeds with a non-empty value; Actual is the comma-joined list of the names of the
candidates that are present and non-empty, in the candidate order, and Actual is the empty
string if and only if the rule is invalid. -/
theorem presence_rules_actual (cs : CapabilityStatement) :
    ∃ function describe,
      EndpointFunctionValid (some cs) = .ok function ∧
      DescribeEndpointValid (some cs) = .ok describe ∧
      (function.Valid = true ↔
        nonEmptyList cs.GetRest = true ∨ nonEmptyList cs.GetMessaging = true ∨
          nonEmptyList cs.GetDocument = true) ∧
      function.Actual = String.intercalate "," (presentNames (functionCandidates cs)) ∧
      (function.Actual = "" ↔ function.Valid = false) ∧
      (describe.Valid = true ↔
        nonEmptyString cs.GetDescription = true ∨ nonEmptyList cs.GetSoftware = true ∨
          nonEmptyList cs.GetImplementation = true) ∧
      describe.Actual = String.intercalate "," (presentNames (describeCandidates cs)) ∧
      (describe.Actual = "" ↔ describe.Valid = false) := by
  refine ⟨_, _, EndpointFunctionValid_some cs, DescribeEndpointValid_some cs, ?_⟩
  unfold functionCandidates describeCandidates
  generalize nonEmptyList cs.GetRest = b1
  generalize nonEmptyList cs.GetMessaging = b2
  generalize nonEmptyList cs.GetDocument = b3
  generalize nonEmptyString cs.GetDescription = b4
  generalize nonEmptyList cs.GetSoftware = b5
  generalize nonEmptyList cs.GetImplementation = b6
  refine ⟨?_, ?_, ?_, ?_, ?_, ?_⟩
  · cases b1 <;> cases b2 <;> cases b3 <;> decide
  · cases b1 <;> cases b2 <;> cases b3 <;> decide
  · cases b1 <;> cases b2 <;> cases b3 <;> decide
  · cases b4 <;> cases b5 <;> cases b6 <;> decide
  · cases b4 <;> cases b5 <;> cases b6 <;> decide
  · cases b4 <;> cases b5 <;> cases b6 <;> decide

theorem messagingLoop_eq (cs : CapabilityStatement) (bc : String) (r : Rule)
    (messaging : List Object) :
    messagingLoop cs bc r messaging =
      if messaging.all (hasEndpoints cs) = true then r
      else r.failWith ("Endpoint field in Messaging does not exist. " ++ bc) := by
  induction messaging with
  | nil => simp [messagingLoop]
  | cons m ms ih =>
    unfold messagingLoop
    rcases h : cs.GetMessagingEndpoint m with e | (_ | ⟨a, l⟩) <;>
      simp [h, hasEndpoints, nonEmptyList, ih]

/-- C12, counterexample. The base rule set `exampleBase` returns a valid kind rule on every
document, the absent one included. On the absent document MessagingEndpointValid passes the
kind test, calls the messaging accessor on the absent document and panics: it returns no
rule, valid or invalid. -/
theorem MessagingEndpointValid_panics_on_absent_document :
    (∃ k others, exampleBase.KindValid none = k :: others ∧ k.Valid = true) ∧
    MessagingEndpointValid exampleBase none = .error Panic.nilDereference ∧
    (∀ r, MessagingEndpointValid exampleBase none ≠ .ok r) := by
  refine ⟨⟨_, _, rfl, rfl⟩, rfl, ?_⟩
  intro r h
  have hp : MessagingEndpointValid exampleBase none = .error Panic.nilDereference := rfl
  rw [hp] at h
  cases h

/-- C12, as amended. Let `k` be the first rule returned by the base kind check. If `k` is
invalid, MessagingEndpointValid is invalid with Actual "false" and its comment is the comment
of `k`, a space and the baseline sentence, for every document, absent ones included. If `k`
is valid and the document is present, the rule is valid if and only if the messaging
accessor succeeds and the endpoint accessor of every messaging entry succeeds with a
non-empty list (an empty messaging list passes); its comment is "Messaging does not exist. "
and the baseline when the messaging accessor fails, and "Endpoint field in Messaging does
not exist. " and the baseline when some entry has no endpoints; when it is valid, Actual is
"true" and the comment is the baseline. -/
theorem MessagingEndpointValid_after_kind (v : baseVal) (capStat : Option CapabilityStatement)
    (k : Rule) (others : List Rule) (hk : v.KindValid capStat = k :: others) :
    (k.Valid = false →
      ∃ r, MessagingEndpointValid v capStat = .ok r ∧ r.Valid = false ∧ r.Actual = "false" ∧
        r.Comment = k.Comment ++ " " ++ messagingBaseline) ∧
    (k.Valid = true → ∀ cs, capStat = some cs →
      ∃ r, MessagingEndpointValid v capStat = .ok r ∧
        (r.Valid = true ↔
          ∃ messaging, cs.GetMessaging = .ok messaging ∧
            ∀ message ∈ messaging, hasEndpoints cs message = true) ∧
        ((∃ e, cs.GetMessaging = .error e) →
          r.Valid = false ∧ r.Actual = "false" ∧
          r.Comment = "Messaging does not exist. " ++ messagingBaseline) ∧
        (∀ messaging, cs.GetMessaging = .ok messaging →
          (∃ message ∈ messaging, hasEndpoints cs message = false) →
          r.Valid = false ∧ r.Actual = "false" ∧
          r.Comment = "Endpoint field in Messaging does not exist. " ++ messagingBaseline) ∧
        (cs.GetMessaging = .ok [] → r.Valid = true) ∧
        (r.Valid = true → r.Actual = "true" ∧ r.Comment = messagingBaseline)) := by
  constructor
  · intro hv
    refine ⟨messagingRule.failWith (k.Comment ++ " " ++ messagingBaseline), ?_, rfl, rfl, rfl⟩
    simp only [MessagingEndpointValid, hk, hv, Bool.not_false, if_true]
    rfl
  · intro hv cs hcs
    subst hcs
    cases hm : cs.GetMessaging with
    | error e =>
      refine ⟨messagingRule.failWith ("Messaging does not exist. " ++ messagingBaseline),
        ?_, ?_⟩
      · simp only [MessagingEndpointValid, hk, hv, Bool.not_true, deref, hm]
        rfl
      · refine ⟨?_, ?_, ?_, ?_, ?_⟩
        · simp [Rule.failWith]
        · intro _; exact ⟨rfl, rfl, rfl⟩
        · intro messaging h; cases h
        · intro h; cases h
        · intro h; simp [Rule.failWith] at h
    | ok messaging =>
      refine ⟨if messaging.all (hasEndpoints cs) = true then messagingRule
        else messagingRule.failWith
          ("Endpoint field in Messaging does not exist. " ++ messagingBaseline), ?_, ?_⟩
      · simp only [MessagingEndpointValid, hk, hv, Bool.not_true, deref, hm, messagingLoop_eq]
        rfl
      · by_cases hall : messaging.all (hasEndpoints cs) = true
        · simp only [hall, if_true]
          refine ⟨?_, ?_, ?_, ?_, ?_⟩
          · exact ⟨fun _ => ⟨messaging, rfl, fun m hmem => List.all_eq_true.1 hall m hmem⟩,
              fun _ => rfl⟩
          · rintro ⟨e, he⟩; cases he
          · rintro ms hms ⟨m, hmem, hno⟩
            cases hms
            have := List.all_eq_true.1 hall m hmem
            rw [this] at hno
            cases hno
          · intro _; rfl
          · intro _; exact ⟨rfl, rfl⟩
        · simp only [hall]
          refine ⟨?_, ?_, ?_, ?_, ?_⟩
          · constructor
            · intro h; simp [Rule.failWith] at h
            · rintro ⟨ms, hms, hal⟩
              cases hms
              exact absurd (List.all_eq_true.2 hal) hall
          · rintro ⟨e, he⟩; cases he
          · intro ms hms _
            exact ⟨rfl, rfl, rfl⟩
          · intro h
            cases h
            exact absurd rfl hall
          · intro h; simp [Rule.failWith] at h

/-- Witness of C12: with a valid kind rule, a document whose second messaging entry has no
endpoint makes the rule invalid. -/
theorem MessagingEndpointValid_after_kind_witness :
    ∃ r, MessagingEndpointValid exampleBase (some messagingWithoutEndpoint) = .ok r ∧
      r.Valid = false ∧
      r.Comment = "Endpoint field in Messaging does not exist. " ++ messagingBaseline := by
  obtain ⟨r, hr, -, -, h, -, -⟩ :=
    (MessagingEndpointValid_after_kind exampleBase (some messagingWithoutEndpoint)
      _ _ rfl).2 rfl messagingWithoutEndpoint rfl
  obtain ⟨h1, -, h3⟩ := h _ rfl ⟨[], List.Mem.tail _ (List.Mem.head _), rfl⟩
  exact ⟨r, hr, h1, h3⟩

/-- C13. The TLSVersion rule is valid if and only if the input is exactly "TLS 1.2" or
exactly "TLS 1.3"; Actual is the input and Expected is "TLS 1.2, TLS 1.3". The inputs
"TLS 1.1", "No TLS", "TLS version unknown" and the empty string fail. -/
theorem TLSVersion_valid_iff (tlsVersion : String) :
    ((TLSVersion tlsVersion).Valid = true ↔ tlsVersion = "TLS 1.2" ∨ tlsVersion = "TLS 1.3") ∧
    (TLSVersion tlsVersion).Actual = tlsVersion ∧
    (TLSVersion tlsVersion).Expected = "TLS 1.2, TLS 1.3" ∧
    (TLSVersion "TLS 1.1").Valid = false ∧ (TLSVersion "No TLS").Valid = false ∧
    (TLSVersion "TLS version unknown").Valid = false ∧ (TLSVersion "").Valid = false ∧
    (TLSVersion "TLS 1.2").Valid = true ∧ (TLSVersion "TLS 1.3").Valid = true := by
  refine ⟨?_, ?_, ?_, by decide, by decide, by decide, by decide, by decide, by decide⟩
  · unfold TLSVersion
    by_cases h2 : tlsVersion = tls12
    · simp [h2, tls12]
    · by_cases h3 : tlsVersion = tls13
      · simp [h3, tls13, tls12]
      · have h2' : ¬ tlsVersion = "TLS 1.2" := h2
        have h3' : ¬ tlsVersion = "TLS 1.3" := h3
        simp [h2, h3, h2', h3']
  · unfold TLSVersion; split_ifs <;> rfl
  · unfold TLSVersion; split_ifs <;> rfl

/-- C14. When the base HTTP-response check passes exactly on the statuses 200 and 0, then
for every status `s`: HTTPResponseValid and SmartHTTPResponseValid keep the Valid, Expected
and Actual fields of the base check and are valid if and only if `s` is 200 or 0; when `s`
is neither, they are invalid and their comment is "The HTTP response code was ", the decimal
rendering of `s`, " instead of 200." and a tail; when `s` is 0 or 200 the comment of the
SMART rule is its baseline sentence and the HTTP rule keeps the base comment; the SMART
rule has the name SmartHTTPRespRule. -/
theorem response_rules_status (v : baseVal)
    (hbase : ∀ s, (v.HTTPResponseValid s).Valid = (specHTTPResponseValid s).Valid) (s : Int) :
    ((HTTPResponseValid v s).Valid = (v.HTTPResponseValid s).Valid ∧
      (HTTPResponseValid v s).Expected = (v.HTTPResponseValid s).Expected ∧
      (HTTPResponseValid v s).Actual = (v.HTTPResponseValid s).Actual) ∧
    ((SmartHTTPResponseValid v s).Valid = (v.HTTPResponseValid s).Valid ∧
      (SmartHTTPResponseValid v s).Expected = (v.HTTPResponseValid s).Expected ∧
      (SmartHTTPResponseValid v s).Actual = (v.HTTPResponseValid s).Actual) ∧
    ((HTTPResponseValid v s).Valid = true ↔ s = 200 ∨ s = 0) ∧
    ((SmartHTTPResponseValid v s).Valid = true ↔ s = 200 ∨ s = 0) ∧
    (s ≠ 0 → s ≠ 200 →
      (HTTPResponseValid v s).Valid = false ∧
      (HTTPResponseValid v s).Comment =
        "The HTTP response code was " ++ Itoa s ++ " instead of 200." ++
          " Applications SHALL return a resource that describes the functionality of the server end-point." ∧
      (SmartHTTPResponseValid v s).Valid = false ∧
      (SmartHTTPResponseValid v s).Comment =
        "The HTTP response code was " ++ Itoa s ++ " instead of 200." ++
          " Applications SHALL return a resource that describes the functionality of the server end-point. FHIR endpoints requiring authorization SHALL serve a JSON document at the location formed by appending /.well-known/smart-configuration to their base URL.") ∧
    (s = 0 ∨ s = 200 →
      (SmartHTTPResponseValid v s).Comment =
        "FHIR endpoints requiring authorization SHALL serve a JSON document at the location formed by appending /.well-known/smart-configuration to their base URL." ∧
      (HTTPResponseValid v s).Comment = (v.HTTPResponseValid s).Comment) ∧
    (SmartHTTPResponseValid v s).RuleName = RuleOption.SmartHTTPRespRule := by
  have hH : (HTTPResponseValid v s).Valid = (v.HTTPResponseValid s).Valid ∧
      (HTTPResponseValid v s).Expected = (v.HTTPResponseValid s).Expected ∧
      (HTTPResponseValid v s).Actual = (v.HTTPResponseValid s).Actual := by
    unfold HTTPResponseValid; split_ifs <;> exact ⟨rfl, rfl, rfl⟩
  have hS : (SmartHTTPResponseValid v s).Valid = (v.HTTPResponseValid s).Valid ∧
      (SmartHTTPResponseValid v s).Expected = (v.HTTPResponseValid s).Expected ∧
      (SmartHTTPResponseValid v s).Actual = (v.HTTPResponseValid s).Actual := by
    unfold SmartHTTPResponseValid; split_ifs <;> exact ⟨rfl, rfl, rfl⟩
  have hV : (v.HTTPResponseValid s).Valid = true ↔ s = 200 ∨ s = 0 := by
    rw [hbase s]; simp [specHTTPResponseValid]
  refine ⟨hH, hS, by rw [hH.1]; exact hV, by rw [hS.1]; exact hV, ?_, ?_, ?_⟩
  · intro h0 h200
    have hf : (v.HTTPResponseValid s).Valid = false := by
      rw [← Bool.not_eq_true, hV]
      rintro (h | h)
      · exact h200 h
      · exact h0 h
    refine ⟨by rw [hH.1]; exact hf, ?_, by rw [hS.1]; exact hf, ?_⟩
    · simp only [HTTPResponseValid, h0, h200, ne_eq, not_false_eq_true, and_self, if_true]
      rw [String.append_assoc _ " instead of 200." _]
      rfl
    · simp only [SmartHTTPResponseValid, h0, h200, ne_eq, not_false_eq_true, and_self,
        if_true]
      rw [String.append_assoc _ " instead of 200." _, String.append_assoc _ _
        "FHIR endpoints requiring authorization SHALL serve a JSON document at the location formed by appending /.well-known/smart-configuration to their base URL."]
      rfl
  · intro h
    have hn : ¬ (s ≠ 0 ∧ s ≠ 200) := by
      rintro ⟨h0, h200⟩
      rcases h with h | h
      · exact h0 h
      · exact h200 h
    constructor
    · simp only [SmartHTTPResponseValid, hn, if_false]
    · simp only [HTTPResponseValid, hn, if_false]
  · unfold SmartHTTPResponseValid; split_ifs <;> rfl

/-- Witness of C14: the base check of the spec passes exactly on 200 and 0, and on the
status 404 the HTTP rule is invalid and embeds "404". -/
theorem response_rules_status_witness :
    (∀ s, (specBase.HTTPResponseValid s).Valid = (specHTTPResponseValid s).Valid) ∧
    (HTTPResponseValid specBase 404).Valid = false ∧
    (HTTPResponseValid specBase 404).Comment =
      "The HTTP response code was 404 instead of 200. Applications SHALL return a resource that describes the functionality of the server end-point." :=
  ⟨fun _ => rfl,
    ((response_rules_status specBase (fun _ => rfl) 404).2.2.2.2.1 (by decide) (by decide)).1,
    ((response_rules_status specBase (fun _ => rfl) 404).2.2.2.2.1
      (by decide) (by decide)).2.1.trans rfl⟩

end R4Validation

namespace CapabilityQuerier

open R4Validation (Value)

/-! ## Lemmas on the fetches -/

theorem requestWithMimeType_log (url mimeType : String) (client : Client) (log : List String) :
    (requestWithMimeType url mimeType client log).2 = log ++ [mimeType] := by
  unfold requestWithMimeType
  split
  · rfl
  · dsimp only
    split_ifs
    · split <;> rfl
    · rfl
    · rfl

theorem requestWithMimeType_ok (url mimeType : String) (client : Client) (log : List String)
    (resp : Response) (hc : client log mimeType = .ok resp) (hr : readFails resp = false) :
    requestWithMimeType url mimeType client log =
      ({ httpResponseCode := resp.StatusCode, tlsVersion := getTLSVersion resp,
         mimeMatches := fetched resp, capStat := bodyOf resp, err := none },
       log ++ [mimeType]) := by
  unfold requestWithMimeType
  simp only [hc]
  by_cases hs : resp.StatusCode = 200
  · by_cases hj : Contains resp.ContentType "json" = true
    · cases hb : resp.Body with
      | error e => simp [readFails, fetched, hs, hj, hb] at hr
      | ok body => simp [fetched, bodyOf, hs, hj, hb, StatusOK, isJSONMIMEType]
    · simp [fetched, bodyOf, hs, hj, StatusOK, isJSONMIMEType]
  · simp [fetched, bodyOf, hs, StatusOK]

theorem getTLSVersion_literal (resp : Response) :
    getTLSVersion resp ∈ tlsLiterals ∧ getTLSVersion resp ≠ "" := by
  unfold getTLSVersion
  split
  · split_ifs <;> exact ⟨by decide, by decide⟩
  · exact ⟨by decide, by decide⟩

theorem requestCapabilityStatement_ok (env : Env) (fhirURL : String) (client : Client)
    (message : Message) (first second : Response)
    (hn : env.NewRequest (env.NormalizeEndpointURL fhirURL) = none)
    (h1 : client [] fhir3PlusJSONMIMEType = .ok first)
    (h2 : client [fhir3PlusJSONMIMEType] fhir2LessJSONMIMEType = .ok second)
    (hr1 : readFails first = false) (hr2 : readFails second = false) :
    requestCapabilityStatement env fhirURL client message =
      if fetched first = true then
        ((recordResults env message first.StatusCode (getTLSVersion first) true
            (fetched second) (bodyOf first)).1,
         (recordResults env message first.StatusCode (getTLSVersion first) true
            (fetched second) (bodyOf first)).2,
         [fhir3PlusJSONMIMEType, fhir2LessJSONMIMEType])
      else
        ((recordResults env message second.StatusCode (getTLSVersion second) false
            (fetched second) (bodyOf second)).1,
         (recordResults env message second.StatusCode (getTLSVersion second) false
            (fetched second) (bodyOf second)).2,
         [fhir3PlusJSONMIMEType, fhir2LessJSONMIMEType]) := by
  have hf1 := requestWithMimeType_ok (env.RequestURL (env.NormalizeEndpointURL fhirURL)) _
    client [] first h1 hr1
  have hf2 := requestWithMimeType_ok (env.RequestURL (env.NormalizeEndpointURL fhirURL)) _ client
    [fhir3PlusJSONMIMEType] second h2 hr2
  unfold requestCapabilityStatement
  simp only [hn, hf1, List.nil_append, hf2]
  by_cases hfe : fetched first = true
  · have hs : first.StatusCode = StatusOK := by
      simp [fetched] at hfe
      exact hfe.1
    simp [hfe, hs]
  · have hfe' : fetched first = false := by simpa using hfe
    simp [hfe']

theorem recordResults_fields (env : Env) (message : Message) (code : Int) (tls : String)
    (modern legacy : Bool) (body : Option Bytes) :
    (recordResults env message code tls modern legacy body).1 =
      { URL := message.URL, Err := message.Err,
        MIMETypes := message.MIMETypes ++ (if legacy = true then [fhir2LessJSONMIMEType] else [])
          ++ (if modern = true then [fhir3PlusJSONMIMEType] else []),
        TLSVersion := tls, HTTPResponse := code,
        CapabilityStatement := decoded env body message.CapabilityStatement } := by
  unfold recordResults decoded
  cases modern <;> cases legacy <;> cases body with
  | none => simp
  | some bytes => cases h : env.Unmarshal bytes <;> simp [h]

/-! ## The claims on the querier -/

theorem bodyOf_of_fetched (resp : Response) (hf : fetched resp = true)
    (hr : readFails resp = false) : ∃ body, resp.Body = .ok body ∧ bodyOf resp = some body := by
  cases hb : resp.Body with
  | error e => simp [readFails, hf, hb] at hr
  | ok body => exact ⟨body, rfl, by simp [bodyOf, hf, hb]⟩

/-- C15. For a probe whose two requests are answered (by `first` for the modern type, then
by `second` for the legacy type) without transport failure: when `first` has status 200 and
a JSON content type, the recorded status, TLS version and body are those of `first`, and
`second` enters the message only through its match flag; otherwise the recorded status, TLS
version and body (none unless `second` has status 200 and a JSON content type) are those of
`second`. -/
theorem requestCapabilityStatement_authoritative (env : Env) (fhirURL : String)
    (client : Client) (message : Message) (first second : Response)
    (hn : env.NewRequest (env.NormalizeEndpointURL fhirURL) = none)
    (h1 : client [] fhir3PlusJSONMIMEType = .ok first)
    (h2 : client [fhir3PlusJSONMIMEType] fhir2LessJSONMIMEType = .ok second)
    (hr1 : readFails first = false) (hr2 : readFails second = false) :
    (fetched first = true →
      ∃ body, first.Body = .ok body ∧
        (requestCapabilityStatement env fhirURL client message).1 =
          { URL := message.URL, Err := message.Err,
            MIMETypes := message.MIMETypes ++
              (if fetched second = true then [fhir2LessJSONMIMEType] else []) ++
              [fhir3PlusJSONMIMEType],
            TLSVersion := getTLSVersion first,
            HTTPResponse := first.StatusCode,
            CapabilityStatement := decoded env (some body) message.CapabilityStatement }) ∧
    (fetched first = false →
      (requestCapabilityStatement env fhirURL client message).1.HTTPResponse
        = second.StatusCode ∧
      (requestCapabilityStatement env fhirURL client message).1.TLSVersion
        = getTLSVersion second ∧
      (requestCapabilityStatement env fhirURL client message).1.CapabilityStatement
        = decoded env (bodyOf second) message.CapabilityStatement ∧
      (fetched second = false → bodyOf second = none) ∧
      (fetched second = true → ∃ body, second.Body = .ok body ∧ bodyOf second = some body)) := by
  have hrun := requestCapabilityStatement_ok env fhirURL client message first second
    hn h1 h2 hr1 hr2
  constructor
  · intro hf
    obtain ⟨body, hb, hbo⟩ := bodyOf_of_fetched first hf hr1
    refine ⟨body, hb, ?_⟩
    rw [hrun]
    simp only [hf, if_true, recordResults_fields, hbo]
  · intro hf
    rw [hrun]
    simp only [hf, Bool.false_eq_true, if_false, recordResults_fields, true_and]
    refine ⟨?_, fun h => bodyOf_of_fetched second h hr2⟩
    intro h
    simp [bodyOf, h]

/-- Witness of C15: an endpoint that answers both requests with `jsonResponse`. -/
theorem requestCapabilityStatement_authoritative_witness :
    (requestCapabilityStatement exampleEnv "https://example.org/fhir"
      (steadyClient jsonResponse) (initialMessage "https://example.org/fhir")).1.HTTPResponse
      = 200 := by
  obtain ⟨body, -, h⟩ :=
    (requestCapabilityStatement_authoritative exampleEnv "https://example.org/fhir"
      (steadyClient jsonResponse) (initialMessage "https://example.org/fhir")
      jsonResponse jsonResponse rfl rfl rfl (by decide) (by decide)).1 (by decide)
  rw [h]
  rfl

/-- C16. For a probe whose two requests are answered without transport failure and that
starts from an empty list of MIME types, the resulting list is the legacy type if the
legacy request matched, followed by the modern type if the modern request matched; it has
at most two entries and no duplicates, it contains the modern type whenever the modern
request was answered with HTTP 200 and a JSON content type, and the legacy type whenever
the legacy request matched. -/
theorem requestCapabilityStatement_mimeTypes (env : Env) (fhirURL : String)
    (client : Client) (message : Message) (first second : Response)
    (hn : env.NewRequest (env.NormalizeEndpointURL fhirURL) = none)
    (h1 : client [] fhir3PlusJSONMIMEType = .ok first)
    (h2 : client [fhir3PlusJSONMIMEType] fhir2LessJSONMIMEType = .ok second)
    (hr1 : readFails first = false) (hr2 : readFails second = false)
    (hm : message.MIMETypes = []) :
    (requestCapabilityStatement env fhirURL client message).1.MIMETypes =
      (if fetched second = true then [fhir2LessJSONMIMEType] else []) ++
        (if fetched first = true then [fhir3PlusJSONMIMEType] else []) ∧
    (requestCapabilityStatement env fhirURL client message).1.MIMETypes.length ≤ 2 ∧
    (requestCapabilityStatement env fhirURL client message).1.MIMETypes.Nodup ∧
    (fetched first = true →
      fhir3PlusJSONMIMEType ∈ (requestCapabilityStatement env fhirURL client message).1.MIMETypes) ∧
    (fetched second = true →
      fhir2LessJSONMIMEType ∈ (requestCapabilityStatement env fhirURL client message).1.MIMETypes) ∧
    (secondFetch env fhirURL client).mimeMatches = fetched second ∧
    (firstFetch env fhirURL client).mimeMatches = fetched first := by
  have hrun := requestCapabilityStatement_ok env fhirURL client message first second
    hn h1 h2 hr1 hr2
  have hf1 := requestWithMimeType_ok (env.RequestURL (env.NormalizeEndpointURL fhirURL)) _
    client [] first h1 hr1
  have hf2 := requestWithMimeType_ok (env.RequestURL (env.NormalizeEndpointURL fhirURL)) _ client
    [fhir3PlusJSONMIMEType] second h2 hr2
  have hlist : (requestCapabilityStatement env fhirURL client message).1.MIMETypes =
      (if fetched second = true then [fhir2LessJSONMIMEType] else []) ++
        (if fetched first = true then [fhir3PlusJSONMIMEType] else []) := by
    rw [hrun]
    cases hfe : fetched first <;>
      simp [recordResults_fields, hm]
  rw [hlist]
  refine ⟨rfl, ?_, ?_, ?_, ?_, ?_, ?_⟩
  · cases fetched first <;> cases fetched second <;> decide
  · cases fetched first <;> cases fetched second <;> decide
  · intro h; rw [h]; cases fetched second <;> decide
  · intro h; rw [h]; cases fetched first <;> decide
  · simp only [secondFetch, hf2]
  · simp only [firstFetch, hf1]

/-- Witness of C16: an endpoint that answers both requests with `jsonResponse` supports the
legacy type and the modern type, in this order. -/
theorem requestCapabilityStatement_mimeTypes_witness :
    (requestCapabilityStatement exampleEnv "https://example.org/fhir"
      (steadyClient jsonResponse) (initialMessage "https://example.org/fhir")).1.MIMETypes
      = ["application/json+fhir", "application/fhir+json"] :=
  (requestCapabilityStatement_mimeTypes exampleEnv "https://example.org/fhir"
    (steadyClient jsonResponse) (initialMessage "https://example.org/fhir")
    jsonResponse jsonResponse rfl rfl rfl (by decide) (by decide) rfl).1.trans (by decide)

/-- C17, counterexample. The response `notFoundResponse` has status 404 and the content
type "application/json", which contains "json"; the match flag of the fetch is false. -/
theorem requestWithMimeType_no_match_on_404 :
    steadyClient notFoundResponse [] fhir3PlusJSONMIMEType = .ok notFoundResponse ∧
    Contains notFoundResponse.ContentType "json" = true ∧
    (requestWithMimeType "https://example.org/fhir" fhir3PlusJSONMIMEType
      (steadyClient notFoundResponse) []).1.mimeMatches = false :=
  ⟨rfl, by decide, by decide⟩

/-- C17, as amended. For every response received by `requestWithMimeType` whose body can be
read, the match flag is true if and only if the status is 200 and the content type contains
"json". -/
theorem requestWithMimeType_match_iff (url mimeType : String) (client : Client)
    (log : List String) (resp : Response) (hc : client log mimeType = .ok resp)
    (hr : readFails resp = false) :
    (requestWithMimeType url mimeType client log).1.mimeMatches = true ↔
      resp.StatusCode = 200 ∧ Contains resp.ContentType "json" = true := by
  rw [requestWithMimeType_ok url mimeType client log resp hc hr]
  simp [fetched]

/-- Witness of C17: `jsonResponse` is matched. -/
theorem requestWithMimeType_match_iff_witness :
    (requestWithMimeType "https://example.org/fhir" fhir3PlusJSONMIMEType
      (steadyClient jsonResponse) []).1.mimeMatches = true :=
  (requestWithMimeType_match_iff "https://example.org/fhir" fhir3PlusJSONMIMEType
    (steadyClient jsonResponse) [] jsonResponse rfl (by decide)).2 ⟨by decide, by decide⟩

/-- C18. For every response that the client returns and whose body can be read,
`requestWithMimeType` returns no error and the status code of the response, whatever it is;
the body returned is not `nil` if and only if the status is 200 and the match flag is true,
and then it is the body of the response. -/
theorem requestWithMimeType_status_and_body (url mimeType : String) (client : Client)
    (log : List String) (resp : Response) (hc : client log mimeType = .ok resp)
    (hr : readFails resp = false) :
    (requestWithMimeType url mimeType client log).1.err = none ∧
    (requestWithMimeType url mimeType client log).1.httpResponseCode = resp.StatusCode ∧
    ((requestWithMimeType url mimeType client log).1.capStat ≠ none ↔
      resp.StatusCode = 200 ∧
        (requestWithMimeType url mimeType client log).1.mimeMatches = true) ∧
    (∀ body, (requestWithMimeType url mimeType client log).1.capStat = some body →
      resp.Body = .ok body) := by
  rw [requestWithMimeType_ok url mimeType client log resp hc hr]
  refine ⟨rfl, rfl, ?_, ?_⟩
  · by_cases hf : fetched resp = true
    · obtain ⟨body, -, hbo⟩ := bodyOf_of_fetched resp hf hr
      have hs : resp.StatusCode = 200 := by
        simp [fetched] at hf
        exact hf.1
      simp [hf, hbo, hs]
    · have hf' : fetched resp = false := by simpa using hf
      simp [hf', bodyOf]
  · intro body hb
    by_cases hf : fetched resp = true
    · obtain ⟨body', hb', hbo⟩ := bodyOf_of_fetched resp hf hr
      simp only [hbo, Option.some.injEq] at hb
      rw [← hb]
      exact hb'
    · have hf' : fetched resp = false := by simpa using hf
      simp [bodyOf, hf'] at hb

/-- Witness of C18: the status 404 of `notFoundResponse` is returned unchanged, with no
error and no body. -/
theorem requestWithMimeType_status_and_body_witness :
    (requestWithMimeType "https://example.org/fhir" fhir3PlusJSONMIMEType
      (steadyClient notFoundResponse) []).1.httpResponseCode = 404 :=
  (requestWithMimeType_status_and_body "https://example.org/fhir" fhir3PlusJSONMIMEType
    (steadyClient notFoundResponse) [] notFoundResponse rfl (by decide)).2.1

theorem requestCapabilityStatement_first_fails (env : Env) (fhirURL : String)
    (client : Client) (message : Message) (e : String)
    (hn : env.NewRequest (env.NormalizeEndpointURL fhirURL) = none)
    (h1 : (firstFetch env fhirURL client).err = some e) :
    requestCapabilityStatement env fhirURL client message =
      (message, some e, [fhir3PlusJSONMIMEType]) := by
  unfold firstFetch at h1
  have hlog := requestWithMimeType_log (env.RequestURL (env.NormalizeEndpointURL fhirURL))
    fhir3PlusJSONMIMEType client []
  unfold requestCapabilityStatement
  rcases hf : requestWithMimeType (env.RequestURL (env.NormalizeEndpointURL fhirURL))
    fhir3PlusJSONMIMEType client [] with ⟨f1, l1⟩
  rw [hf] at h1 hlog
  simp only [List.nil_append] at h1 hlog
  subst hlog
  simp only [hn, hf, h1]

theorem requestCapabilityStatement_second_fails (env : Env) (fhirURL : String)
    (client : Client) (message : Message) (e : String)
    (hn : env.NewRequest (env.NormalizeEndpointURL fhirURL) = none)
    (h1 : (firstFetch env fhirURL client).err = none)
    (h2 : (secondFetch env fhirURL client).err = some e) :
    requestCapabilityStatement env fhirURL client message =
      (message, some e, [fhir3PlusJSONMIMEType, fhir2LessJSONMIMEType]) := by
  unfold firstFetch at h1
  unfold secondFetch at h2
  have hlog1 := requestWithMimeType_log (env.RequestURL (env.NormalizeEndpointURL fhirURL))
    fhir3PlusJSONMIMEType client []
  have hlog2 := requestWithMimeType_log (env.RequestURL (env.NormalizeEndpointURL fhirURL))
    fhir2LessJSONMIMEType client [fhir3PlusJSONMIMEType]
  unfold requestCapabilityStatement
  rcases hf1 : requestWithMimeType (env.RequestURL (env.NormalizeEndpointURL fhirURL))
    fhir3PlusJSONMIMEType client [] with ⟨f1, l1⟩
  rcases hf2 : requestWithMimeType (env.RequestURL (env.NormalizeEndpointURL fhirURL))
    fhir2LessJSONMIMEType client [fhir3PlusJSONMIMEType] with ⟨f2, l2⟩
  rw [hf1] at h1 hlog1
  rw [hf2] at h2 hlog2
  simp only [List.nil_append] at h1 hlog1 h2 hlog2
  subst hlog1
  subst hlog2
  simp only [hn, hf1, h1, hf2, h2]
  split_ifs <;> rfl

/-- C19. When a fetch of a probe fails at transport level with the error `e` (the first
fetch, or the second after a first without error), `requestCapabilityStatement` returns `e`
and leaves the message as it was, having made exactly one request in the first case and
exactly two in the second; `GetAndSendCapabilityStatement` then builds the message with the
URL, the error text `e`, HTTP status 0, an empty TLS version, no MIME types and a null
capability statement. -/
theorem transport_failure_aborts (env : Env) (qa : QuerierArgs) (e : String)
    (hn : env.NewRequest (env.NormalizeEndpointURL qa.FhirURL) = none)
    (hfail : (firstFetch env qa.FhirURL qa.Client).err = some e ∨
      ((firstFetch env qa.FhirURL qa.Client).err = none ∧
        (secondFetch env qa.FhirURL qa.Client).err = some e)) :
    (∀ message,
      requestCapabilityStatement env qa.FhirURL qa.Client message =
        (message, some e,
          match (firstFetch env qa.FhirURL qa.Client).err with
          | some _ => [fhir3PlusJSONMIMEType]
          | none => [fhir3PlusJSONMIMEType, fhir2LessJSONMIMEType])) ∧
    (GetAndSendCapabilityStatement env (some qa)).message =
      some { URL := qa.FhirURL, Err := e, MIMETypes := [], TLSVersion := "",
             HTTPResponse := 0, CapabilityStatement := Value.null } ∧
    (GetAndSendCapabilityStatement env (some qa)).requests.length =
      (match (firstFetch env qa.FhirURL qa.Client).err with
        | some _ => 1
        | none => 2) := by
  have hrun : ∀ message,
      requestCapabilityStatement env qa.FhirURL qa.Client message =
        (message, some e,
          match (firstFetch env qa.FhirURL qa.Client).err with
          | some _ => [fhir3PlusJSONMIMEType]
          | none => [fhir3PlusJSONMIMEType, fhir2LessJSONMIMEType]) := by
    intro message
    rcases hfail with h1 | ⟨h1, h2⟩
    · rw [requestCapabilityStatement_first_fails env qa.FhirURL qa.Client message e hn h1, h1]
    · rw [requestCapabilityStatement_second_fails env qa.FhirURL qa.Client message e hn h1 h2,
        h1]
  refine ⟨hrun, ?_, ?_⟩
  · unfold GetAndSendCapabilityStatement
    simp only [hrun]
    cases env.Marshal _ with
    | error err => rfl
    | ok msgStr =>
      dsimp only
      cases env.SendToQueue msgStr <;> rfl
  · unfold GetAndSendCapabilityStatement
    simp only [hrun]
    have hlen : ∀ err : Option String,
        (match err with
          | some _ => [fhir3PlusJSONMIMEType]
          | none => [fhir3PlusJSONMIMEType, fhir2LessJSONMIMEType]).length =
        (match err with
          | some _ => 1
          | none => 2) := by
      intro err; cases err <;> rfl
    cases env.Marshal _ with
    | error err => exact hlen _
    | ok msgStr =>
      dsimp only
      cases env.SendToQueue msgStr <;> exact hlen _

/-- Witness of C19: the endpoint answers the first request with HTTP 200 and JSON and the
second request fails; two requests are made and nothing but the URL and the error is
recorded. -/
theorem transport_failure_aborts_witness :
    (GetAndSendCapabilityStatement exampleEnv (some (exampleArgs failsOnSecond))).message =
      some { URL := "https://example.org/fhir",
             Err := "making the GET request to https://example.org/fhir failed: connection reset",
             MIMETypes := [], TLSVersion := "", HTTPResponse := 0,
             CapabilityStatement := Value.null } ∧
    (GetAndSendCapabilityStatement exampleEnv
      (some (exampleArgs failsOnSecond))).requests.length = 2 :=
  ⟨(transport_failure_aborts exampleEnv (exampleArgs failsOnSecond)
      "making the GET request to https://example.org/fhir failed: connection reset" rfl
      (Or.inr ⟨rfl, rfl⟩)).2.1,
   (transport_failure_aborts exampleEnv (exampleArgs failsOnSecond)
      "making the GET request to https://example.org/fhir failed: connection reset" rfl
      (Or.inr ⟨rfl, rfl⟩)).2.2⟩

/-- C20, counterexample. A probe with `failingClient` makes a request attempt, which fails at
transport level, and the TLS version of the message that is built is the empty string. -/
theorem tlsVersion_empty_after_failure :
    (GetAndSendCapabilityStatement exampleEnv (some (exampleArgs failingClient))).requests
      = [fhir3PlusJSONMIMEType] ∧
    (GetAndSendCapabilityStatement exampleEnv
      (some (exampleArgs failingClient))).message.map Message.TLSVersion = some "" ∧
    "" ∉ tlsLiterals :=
  ⟨rfl, rfl, by decide⟩

/-- C20, as amended. Once both requests of a probe have been answered without transport
failure, the TLS version of the message is one of the seven enumeration literals and is not
the empty string. -/
theorem tlsVersion_literal_after_probe (env : Env) (fhirURL : String)
    (client : Client) (message : Message) (first second : Response)
    (hn : env.NewRequest (env.NormalizeEndpointURL fhirURL) = none)
    (h1 : client [] fhir3PlusJSONMIMEType = .ok first)
    (h2 : client [fhir3PlusJSONMIMEType] fhir2LessJSONMIMEType = .ok second)
    (hr1 : readFails first = false) (hr2 : readFails second = false) :
    (requestCapabilityStatement env fhirURL client message).1.TLSVersion ∈ tlsLiterals ∧
    (requestCapabilityStatement env fhirURL client message).1.TLSVersion ≠ "" := by
  rw [requestCapabilityStatement_ok env fhirURL client message first second hn h1 h2 hr1 hr2]
  split_ifs
  · simp only [recordResults_fields]
    exact getTLSVersion_literal first
  · simp only [recordResults_fields]
    exact getTLSVersion_literal second

/-- Witness of C20: an endpoint that answers both requests with `jsonResponse`, over
TLS 1.2. -/
theorem tlsVersion_literal_after_probe_witness :
    (requestCapabilityStatement exampleEnv "https://example.org/fhir"
      (steadyClient jsonResponse) (initialMessage "https://example.org/fhir")).1.TLSVersion
      ∈ tlsLiterals :=
  (tlsVersion_literal_after_probe exampleEnv "https://example.org/fhir"
    (steadyClient jsonResponse) (initialMessage "https://example.org/fhir")
    jsonResponse jsonResponse rfl rfl rfl (by decide) (by decide)).1

/-- C21. The function `getTLSVersion` is total: without TLS state it returns "No TLS"; with
TLS state it returns "SSL 3.0", "TLS 1.0", "TLS 1.1", "TLS 1.2", "TLS 1.3" for the versions
0x0300, 0x0301, 0x0302, 0x0303, 0x0304 and "TLS version unknown" for every other version.
The result is one of the seven literals and is never empty, and the literals of the five
recognised versions are pairwise distinct. -/
theorem getTLSVersion_classifies (resp : Response) :
    getTLSVersion resp =
      (match resp.TLS with
        | none => "No TLS"
        | some version =>
          if version = 0x0300 then "SSL 3.0"
          else if version = 0x0301 then "TLS 1.0"
          else if version = 0x0302 then "TLS 1.1"
          else if version = 0x0303 then "TLS 1.2"
          else if version = 0x0304 then "TLS 1.3"
          else "TLS version unknown") ∧
    getTLSVersion resp ∈
      ["SSL 3.0", "TLS 1.0", "TLS 1.1", "TLS 1.2", "TLS 1.3", "TLS version unknown", "No TLS"] ∧
    getTLSVersion resp ≠ "" ∧
    ["SSL 3.0", "TLS 1.0", "TLS 1.1", "TLS 1.2", "TLS 1.3"].Nodup ∧
    (List.map (fun version => getTLSVersion { resp with TLS := some version })
        [0x0300, 0x0301, 0x0302, 0x0303, 0x0304]
      = ["SSL 3.0", "TLS 1.0", "TLS 1.1", "TLS 1.2", "TLS 1.3"]) := by
  refine ⟨?_, (getTLSVersion_literal resp).1, (getTLSVersion_literal resp).2, by decide, rfl⟩
  unfold getTLSVersion
  cases resp.TLS with
  | none => rfl
  | some version => rfl

theorem authoritativeBody_none_iff (first second : Response)
    (hr1 : readFails first = false) (hr2 : readFails second = false) :
    authoritativeBody first second = none ↔ fetched (authoritative first second) = false := by
  have hr : readFails (authoritative first second) = false := by
    unfold authoritative; split_ifs <;> assumption
  constructor
  · intro h
    by_contra hf
    have hf' : fetched (authoritative first second) = true := by simpa using hf
    obtain ⟨body, -, hb⟩ := bodyOf_of_fetched _ hf' hr
    unfold authoritativeBody at h
    rw [hb] at h
    cases h
  · intro h
    simp [authoritativeBody, bodyOf, h]

theorem requestCapabilityStatement_recorded (env : Env) (fhirURL : String)
    (client : Client) (message : Message) (first second : Response)
    (hn : env.NewRequest (env.NormalizeEndpointURL fhirURL) = none)
    (h1 : client [] fhir3PlusJSONMIMEType = .ok first)
    (h2 : client [fhir3PlusJSONMIMEType] fhir2LessJSONMIMEType = .ok second)
    (hr1 : readFails first = false) (hr2 : readFails second = false) :
    requestCapabilityStatement env fhirURL client message =
      ((recordResults env message (authoritative first second).StatusCode
          (getTLSVersion (authoritative first second)) (fetched first) (fetched second)
          (authoritativeBody first second)).1,
       (recordResults env message (authoritative first second).StatusCode
          (getTLSVersion (authoritative first second)) (fetched first) (fetched second)
          (authoritativeBody first second)).2,
       [fhir3PlusJSONMIMEType, fhir2LessJSONMIMEType]) := by
  rw [requestCapabilityStatement_ok env fhirURL client message first second hn h1 h2 hr1 hr2]
  by_cases hf : fetched first = true
  · simp [hf, authoritative, authoritativeBody]
  · have hf' : fetched first = false := by simpa using hf
    simp [hf', authoritative, authoritativeBody]

theorem recordResults_error (env : Env) (message : Message) (code : Int) (tls : String)
    (modern legacy : Bool) (body : Option Bytes) :
    (recordResults env message code tls modern legacy body).2 =
      match body with
      | some bytes =>
        match env.Unmarshal bytes with
        | .error e => some e
        | .ok _ => none
      | none => none := by
  unfold recordResults
  cases body with
  | none => rfl
  | some bytes => cases h : env.Unmarshal bytes <;> simp [h]

theorem recordResults_none (env : Env) (message : Message) (code : Int) (tls : String)
    (modern legacy : Bool) (unmarshal : Bytes → Except String Value) :
    recordResults { env with Unmarshal := unmarshal } message code tls modern legacy none =
      recordResults env message code tls modern legacy none := rfl

/-- C22. For a probe whose two requests are answered without transport failure: when the
authoritative body does not decode as JSON, `requestCapabilityStatement` returns the decoding
error, the message keeps the status and TLS version of the authoritative response and the
matched MIME types, its capability statement is unchanged, and the message built by
`GetAndSendCapabilityStatement` carries the error text; when there is no authoritative body
(the authoritative response is not HTTP 200 with a JSON content type), no error is returned,
the capability statement is unchanged (null in the message built), and the outcome does not
depend on the decoder. -/
theorem parse_failure_is_returned (env : Env) (qa : QuerierArgs) (first second : Response)
    (hn : env.NewRequest (env.NormalizeEndpointURL qa.FhirURL) = none)
    (h1 : qa.Client [] fhir3PlusJSONMIMEType = .ok first)
    (h2 : qa.Client [fhir3PlusJSONMIMEType] fhir2LessJSONMIMEType = .ok second)
    (hr1 : readFails first = false) (hr2 : readFails second = false) :
    (∀ bytes e, authoritativeBody first second = some bytes → env.Unmarshal bytes = .error e →
      (∀ message,
        requestCapabilityStatement env qa.FhirURL qa.Client message =
          ({ URL := message.URL, Err := message.Err,
             MIMETypes := message.MIMETypes ++ matchedTypes first second,
             TLSVersion := getTLSVersion (authoritative first second),
             HTTPResponse := (authoritative first second).StatusCode,
             CapabilityStatement := message.CapabilityStatement },
           some e, [fhir3PlusJSONMIMEType, fhir2LessJSONMIMEType])) ∧
      (GetAndSendCapabilityStatement env (some qa)).message =
        some { URL := qa.FhirURL, Err := e,
               MIMETypes := matchedTypes first second,
               TLSVersion := getTLSVersion (authoritative first second),
               HTTPResponse := (authoritative first second).StatusCode,
               CapabilityStatement := Value.null }) ∧
    (authoritativeBody first second = none →
      (∀ message,
        (requestCapabilityStatement env qa.FhirURL qa.Client message).2.1 = none ∧
        (requestCapabilityStatement env qa.FhirURL qa.Client message).1.CapabilityStatement
          = message.CapabilityStatement ∧
        ∀ unmarshal,
          requestCapabilityStatement { env with Unmarshal := unmarshal } qa.FhirURL qa.Client
            message = requestCapabilityStatement env qa.FhirURL qa.Client message) ∧
      (GetAndSendCapabilityStatement env (some qa)).message =
        some { URL := qa.FhirURL, Err := "",
               MIMETypes := matchedTypes first second,
               TLSVersion := getTLSVersion (authoritative first second),
               HTTPResponse := (authoritative first second).StatusCode,
               CapabilityStatement := Value.null }) ∧
    (authoritativeBody first second = none ↔ fetched (authoritative first second) = false) := by
  have hrun := fun message => requestCapabilityStatement_recorded env qa.FhirURL qa.Client
    message first second hn h1 h2 hr1 hr2
  have hmime : ∀ l : List String,
      l ++ (if fetched second = true then [fhir2LessJSONMIMEType] else []) ++
        (if fetched first = true then [fhir3PlusJSONMIMEType] else []) =
      l ++ matchedTypes first second := by
    intro l; simp [matchedTypes]
  refine ⟨?_, ?_, authoritativeBody_none_iff first second hr1 hr2⟩
  · intro bytes e hb he
    have hmsg : ∀ message,
        requestCapabilityStatement env qa.FhirURL qa.Client message =
          ({ URL := message.URL, Err := message.Err,
             MIMETypes := message.MIMETypes ++ matchedTypes first second,
             TLSVersion := getTLSVersion (authoritative first second),
             HTTPResponse := (authoritative first second).StatusCode,
             CapabilityStatement := message.CapabilityStatement },
           some e, [fhir3PlusJSONMIMEType, fhir2LessJSONMIMEType]) := by
      intro message
      rw [hrun message, recordResults_fields, recordResults_error, hb, hmime]
      simp [decoded, he]
    refine ⟨hmsg, ?_⟩
    unfold GetAndSendCapabilityStatement
    simp only [hmsg, List.nil_append]
    cases env.Marshal _ with
    | error err => rfl
    | ok msgStr =>
      dsimp only
      cases env.SendToQueue msgStr <;> rfl
  · intro hb
    have hmsg : ∀ message,
        requestCapabilityStatement env qa.FhirURL qa.Client message =
          ({ URL := message.URL, Err := message.Err,
             MIMETypes := message.MIMETypes ++ matchedTypes first second,
             TLSVersion := getTLSVersion (authoritative first second),
             HTTPResponse := (authoritative first second).StatusCode,
             CapabilityStatement := message.CapabilityStatement },
           none, [fhir3PlusJSONMIMEType, fhir2LessJSONMIMEType]) := by
      intro message
      rw [hrun message, recordResults_fields, recordResults_error, hb, hmime]
      simp [decoded]
    refine ⟨?_, ?_⟩
    · intro message
      refine ⟨by rw [hmsg], by rw [hmsg], ?_⟩
      intro unmarshal
      rw [hrun message, requestCapabilityStatement_recorded { env with Unmarshal := unmarshal }
        qa.FhirURL qa.Client message first second hn h1 h2 hr1 hr2, hb, recordResults_none]
    · unfold GetAndSendCapabilityStatement
      simp only [hmsg, List.nil_append]
      cases env.Marshal _ with
      | error err => rfl
      | ok msgStr =>
        dsimp only
        cases env.SendToQueue msgStr <;> rfl

/-- Witness of C22: the endpoint answers both requests with `jsonResponse` and no body
decodes; the error is recorded with status 200, TLS 1.2 and both MIME types. -/
theorem parse_failure_is_returned_witness :
    (GetAndSendCapabilityStatement strictEnv (some (exampleArgs (steadyClient jsonResponse)))).message
      = some { URL := "https://example.org/fhir", Err := "unexpected end of JSON input",
               MIMETypes := ["application/json+fhir", "application/fhir+json"],
               TLSVersion := "TLS 1.2", HTTPResponse := 200,
               CapabilityStatement := Value.null } :=
  ((parse_failure_is_returned strictEnv (exampleArgs (steadyClient jsonResponse))
    jsonResponse jsonResponse rfl rfl rfl (by decide) (by decide)).1 [123, 125]
    "unexpected end of JSON input" (by decide) rfl).2.trans rfl

end CapabilityQuerier

namespace R4Validation

/-! ## The instance rule and the fields of the resource-list rules -/

/-- C23. For every present capability document on which the base kind check returns at least
one rule `k`, `KindValid` returns exactly two rules: the first is `k` with only Reference and
ImplGuide overridden; the second is the instance rule, valid with Actual "true" if and only
if the implementation accessor succeeds with a non-empty value, and invalid with Actual
"false" otherwise. The second rule is determined by the result of the implementation
accessor alone: it is the same for every base rule set and every document with the same
implementation. -/
theorem KindValid_two_rules (v : baseVal) (cs : CapabilityStatement) (k : Rule)
    (others : List Rule) (hk : v.KindValid (some cs) = k :: others) :
    KindValid v (some cs) =
      .ok [{ k with Reference := "http://hl7.org/fhir/capabilitystatement.html",
                    ImplGuide := "USCore 3.1" },
           { RuleName := RuleOption.InstanceRule,
             Valid := nonEmptyList cs.GetImplementation,
             Expected := "true",
             Actual := if nonEmptyList cs.GetImplementation = true then "true" else "false",
             Comment := "If kind = instance, implementation must be present. This endpoint must be an instance.",
             Reference := "http://hl7.org/fhir/capabilitystatement.html",
             ImplGuide := "USCore 3.1" }] ∧
    (nonEmptyList cs.GetImplementation = true ↔
      ∃ impl, cs.GetImplementation = .ok impl ∧ impl.length ≠ 0) ∧
    (∀ (v' : baseVal) (cs' : CapabilityStatement) (k' : Rule) (others' : List Rule),
      v'.KindValid (some cs') = k' :: others' →
      cs'.GetImplementation = cs.GetImplementation →
      (KindValid v' (some cs')).map (fun rules => rules.drop 1) =
        (KindValid v (some cs)).map (fun rules => rules.drop 1)) := by
  have hrun : ∀ (w : baseVal) (d : CapabilityStatement) (j : Rule) (js : List Rule),
      w.KindValid (some d) = j :: js →
      KindValid w (some d) =
        .ok [{ j with Reference := "http://hl7.org/fhir/capabilitystatement.html",
                      ImplGuide := "USCore 3.1" },
             { RuleName := RuleOption.InstanceRule,
               Valid := nonEmptyList d.GetImplementation,
               Expected := "true",
               Actual := if nonEmptyList d.GetImplementation = true then "true" else "false",
               Comment := "If kind = instance, implementation must be present. This endpoint must be an instance.",
               Reference := "http://hl7.org/fhir/capabilitystatement.html",
               ImplGuide := "USCore 3.1" }] := by
    intro w d j js hj
    rcases h : d.GetImplementation with e | (_ | ⟨a, l⟩) <;>
      simp [KindValid, hj, deref, h, nonEmptyList]
  refine ⟨hrun v cs k others hk, ?_, ?_⟩
  · rcases h : cs.GetImplementation with e | (_ | ⟨a, l⟩) <;> simp [nonEmptyList]
  · intro v' cs' k' others' hk' himpl
    rw [hrun v cs k others hk, hrun v' cs' k' others' hk', himpl]
    rfl

/-- Witness of C23: on `patientOnly`, which has an implementation, the instance rule is
valid with Actual "true". -/
theorem KindValid_two_rules_witness :
    KindValid exampleBase (some patientOnly) =
      .ok [{ RuleName := RuleOption.other "kind", Valid := true, Expected := "", Actual := "",
             Comment := "", Reference := "http://hl7.org/fhir/capabilitystatement.html",
             ImplGuide := "USCore 3.1" },
           { RuleName := RuleOption.InstanceRule, Valid := true, Expected := "true",
             Actual := "true",
             Comment := "If kind = instance, implementation must be present. This endpoint must be an instance.",
             Reference := "http://hl7.org/fhir/capabilitystatement.html",
             ImplGuide := "USCore 3.1" }] :=
  (KindValid_two_rules exampleBase patientOnly _ [] rfl).1.trans rfl

theorem listRuleInvariant_failWith (r : Rule) (c : String) (h : listRuleInvariant r) :
    listRuleInvariant (r.failWith c) :=
  ⟨h.1, h.2.1, Or.inr ⟨rfl, rfl⟩⟩

theorem resourceBody_invariant (rule : RuleOption) (x : Object) (r : Rule) (u : List String)
    (h : listRuleInvariant r) :
    (∀ y, resourceBody rule x r u = Flow.ret y → listRuleInvariant y) ∧
    (∀ r1 u1, resourceBody rule x r u = Flow.next r1 u1 → listRuleInvariant r1) := by
  have hf := fun c => listRuleInvariant_failWith r c h
  unfold resourceBody
  constructor
  · intro y hy
    split at hy
    · cases hy; exact hf _
    · split_ifs at hy <;> try (cases hy; first | exact h | exact hf _)
      split at hy
      · cases hy
      · split_ifs at hy
    · cases hy; exact hf _
  · intro r1 u1 hy
    split at hy
    · cases hy
    · split_ifs at hy <;> try (cases hy; exact h)
      split at hy
      · cases hy; exact hf _
      · split_ifs at hy <;> cases hy <;> first | exact h | exact hf _
    · cases hy

theorem resourceLoop_invariant (rule : RuleOption) (l : List Object) (r : Rule)
    (u : List String) (h : listRuleInvariant r) :
    (∀ y, resourceLoop rule l r u = Flow.ret y → listRuleInvariant y) ∧
    (∀ r1 u1, resourceLoop rule l r u = Flow.next r1 u1 → listRuleInvariant r1) := by
  induction l generalizing r u with
  | nil =>
    refine ⟨fun y hy => ?_, fun r1 u1 hy => ?_⟩
    · simp [resourceLoop] at hy
    · simp only [resourceLoop, Flow.next.injEq] at hy
      rw [← hy.1]
      exact h
  | cons x xs ih =>
    simp only [resourceLoop]
    have hb := resourceBody_invariant rule x r u h
    cases hx : resourceBody rule x r u with
    | ret y =>
      exact ⟨fun z hz => by cases hz; exact hb.1 y hx, fun r1 u1 hz => by cases hz⟩
    | next r2 u2 => exact ih r2 u2 (hb.2 r2 u2 hx)

theorem checkResourceListEnd_invariant (rule : RuleOption) (r : Rule)
    (h : listRuleInvariant r) : listRuleInvariant (checkResourceListEnd rule r) := by
  unfold checkResourceListEnd
  split_ifs
  · exact h
  · exact ⟨h.1, h.2.1, Or.inr ⟨rfl, rfl⟩⟩

theorem restLoop_invariant (cs : CapabilityStatement) (rule : RuleOption) (rest : List Object)
    (r : Rule) (u : List String) (h : listRuleInvariant r) :
    listRuleInvariant (restLoop cs rule rest r u) := by
  induction rest generalizing r u with
  | nil => exact checkResourceListEnd_invariant rule r h
  | cons b bs ih =>
    simp only [restLoop]
    cases cs.GetResourceList b with
    | error e => exact listRuleInvariant_failWith r _ h
    | ok resourceList =>
      dsimp only
      split_ifs
      · exact listRuleInvariant_failWith r _ h
      · have hl := resourceLoop_invariant rule resourceList r u h
        cases hx : resourceLoop rule resourceList r u with
        | ret y => exact hl.1 y hx
        | next r2 u2 => exact ih r2 u2 (hl.2 r2 u2 hx)

theorem checkResourceList_invariant (capStat : Option CapabilityStatement)
    (rule : RuleOption) : listRuleInvariant (checkResourceList capStat rule) := by
  have h0 : listRuleInvariant (initialRule rule) := ⟨rfl, rfl, Or.inl ⟨rfl, rfl, rfl⟩⟩
  cases capStat with
  | none => exact listRuleInvariant_failWith _ _ h0
  | some cs =>
    cases hr : cs.GetRest with
    | error e =>
      simp only [checkResourceList, hr]
      exact listRuleInvariant_failWith _ _ h0
    | ok rest =>
      rw [checkResourceList_rest cs rule rest hr]
      exact restLoop_invariant cs rule rest _ [] h0

/-- C24. For every capability document, absent ones included, and each of the four
resource-list rules, the returned rule has Expected "true" and ImplGuide "USCore 3.1"; its
Actual is "false" exactly when it is invalid and the empty string exactly when it is valid,
so it is never "true"; and a valid rule has the baseline sentence of the rule as its comment.
Each of the four rules is valid on a document with a Patient and an Observation resource. -/
theorem resource_list_rule_fields (k : ListRule) (capStat : Option CapabilityStatement) :
    (k.run capStat).Expected = "true" ∧
    (k.run capStat).ImplGuide = "USCore 3.1" ∧
    ((k.run capStat).Actual = "false" ↔ (k.run capStat).Valid = false) ∧
    ((k.run capStat).Actual = "" ↔ (k.run capStat).Valid = true) ∧
    (k.run capStat).Actual ≠ "true" ∧
    ((k.run capStat).Valid = false ∨ (k.run capStat).Comment = k.baseline) ∧
    (k.run (some (exampleDocument
      [restBlock [resourceOfType "Patient", resourceOfType "Observation"]] []))).Valid = true := by
  obtain ⟨hv, ha, hc, he, hg⟩ := run_fields k capStat
  obtain ⟨h1, h2, h3⟩ := checkResourceList_invariant capStat k.option
  rw [hv, ha, hc, he, hg]
  refine ⟨h1, h2, ?_, ?_, ?_, ?_, ?_⟩
  · rcases h3 with ⟨a, b, -⟩ | ⟨a, b⟩ <;> simp [a, b]
  · rcases h3 with ⟨a, b, -⟩ | ⟨a, b⟩ <;> simp [a, b]
  · rcases h3 with ⟨-, b, -⟩ | ⟨-, b⟩ <;> rw [b] <;> decide
  · rcases h3 with ⟨-, -, c⟩ | ⟨a, -⟩
    · right; rw [c, String.empty_append]
    · left; exact a
  · cases k <;> decide

end R4Validation
